import Mathlib

/-!
# Verification of the NLQ phrase-to-query translator

Shallow embedding of `src/fastapi_backend/src/services/nlq_service.py`:
a deterministic, rule-based parser mapping natural-language phrases to
MongoDB-style query descriptors `{filter, projection, sort, limit, offset}`.

Modelling conventions:
* Python `dict`s are insertion-ordered association lists (`Doc`); `dict.__setitem__`
  replaces in place (preserving position) or appends.
* Python scalar values (`int`, `float`, `str`, `datetime`, `list`, `dict`) are the
  inductive `PyVal`; floats are modelled as exact rationals (every float literal the
  parser handles is produced by `float(...)` on a decimal token).
* `datetime` instants (always UTC in the source) are `DT`: `days` counts civil days
  since an arbitrary epoch (standing for the `(year, month, day)` triple) and `sod`
  is the time of day in seconds.  `datetime(now.year, now.month, now.day, tzinfo=utc)`
  is `floorDay`, and `timedelta` arithmetic on whole days/weeks shifts `days`.
* The wall clock read by `_now_utc()` inside `parse_nlq_to_query` is made explicit
  as an extra `DT` argument of the embedded function (the value that
  `datetime.now(timezone.utc)` returned during the call).
* The pure functions below give the value semantics on in-range dates; the
  `OverflowError` that CPython raises when a `timedelta` exceeds its 999,999,999-day
  magnitude bound, or when `datetime ± timedelta` leaves the supported date range,
  is modelled by the fallible `..._exc` layer (`Except Unit`, `.error ()` standing
  for the propagated exception, which `parse_nlq_to_query` does not catch).
* Python `re` patterns are hand-compiled into character-list scanners with the same
  leftmost-match semantics; for each pattern of the source, greedy matching without
  backtracking is equivalent because every dropped character of a greedy class can
  never start the next pattern element (argued per matcher in comments).
-/

set_option maxRecDepth 10000

/-- A UTC instant: civil day index and seconds of day.  `days` is the proleptic
Gregorian day ordinal of the `(year, month, day)` triple (Python's
`date.toordinal()`); the datetimes Python can represent have
`1 ≤ days ≤ 3652059` (year 1 to year 9999). -/
structure DT where
  days : Int
  sod : Nat
deriving DecidableEq, Repr

/-- `datetime(now.year, now.month, now.day, tzinfo=timezone.utc)`: midnight of the
instant's civil day. -/
def floorDay (t : DT) : DT := ⟨t.days, 0⟩

/-- `t + timedelta(days=n)` (also `t - timedelta(days=m)` via negative `n`). -/
def addDays (t : DT) (n : Int) : DT := ⟨t.days + n, t.sod⟩

/-- A Python value as it occurs in query descriptors. -/
inductive PyVal where
  | vInt (n : Int)
  | vFloat (q : ℚ)
  | vStr (s : String)
  | vDT (d : DT)
  | vList (xs : List PyVal)
  | vDict (es : List (String × PyVal))
deriving Repr

open PyVal

/-- A Python dict with string keys, as an insertion-ordered association list. -/
abbrev Doc := List (String × PyVal)

mutual

def beqV : PyVal → PyVal → Bool
  | vInt a, vInt b => a == b
  | vFloat a, vFloat b => a == b
  | vStr a, vStr b => a == b
  | vDT a, vDT b => a == b
  | vList a, vList b => beqL a b
  | vDict a, vDict b => beqD a b
  | _, _ => false

def beqL : List PyVal → List PyVal → Bool
  | [], [] => true
  | x :: xs, y :: ys => beqV x y && beqL xs ys
  | _, _ => false

def beqD : List (String × PyVal) → List (String × PyVal) → Bool
  | [], [] => true
  | (k, v) :: xs, (k2, v2) :: ys => k == k2 && beqV v v2 && beqD xs ys
  | _, _ => false

end

mutual

theorem beqV_refl : ∀ a, beqV a a = true
  | vInt a => by simp [beqV]
  | vFloat a => by simp [beqV]
  | vStr a => by simp [beqV]
  | vDT a => by simp [beqV]
  | vList a => by simp [beqV, beqL_refl a]
  | vDict a => by simp [beqV, beqD_refl a]

theorem beqL_refl : ∀ xs, beqL xs xs = true
  | [] => by simp [beqL]
  | x :: xs => by simp [beqL, beqV_refl x, beqL_refl xs]

theorem beqD_refl : ∀ xs, beqD xs xs = true
  | [] => by simp [beqD]
  | (k, v) :: xs => by simp [beqD, beqV_refl v, beqD_refl xs]

end

mutual

theorem beqV_eq : ∀ a b, beqV a b = true → a = b
  | vInt a, vInt b => by simp [beqV]
  | vInt _, vFloat _ => by simp [beqV]
  | vInt _, vStr _ => by simp [beqV]
  | vInt _, vDT _ => by simp [beqV]
  | vInt _, vList _ => by simp [beqV]
  | vInt _, vDict _ => by simp [beqV]
  | vFloat _, vInt _ => by simp [beqV]
  | vFloat a, vFloat b => by simp [beqV]
  | vFloat _, vStr _ => by simp [beqV]
  | vFloat _, vDT _ => by simp [beqV]
  | vFloat _, vList _ => by simp [beqV]
  | vFloat _, vDict _ => by simp [beqV]
  | vStr _, vInt _ => by simp [beqV]
  | vStr _, vFloat _ => by simp [beqV]
  | vStr a, vStr b => by simp [beqV]
  | vStr _, vDT _ => by simp [beqV]
  | vStr _, vList _ => by simp [beqV]
  | vStr _, vDict _ => by simp [beqV]
  | vDT _, vInt _ => by simp [beqV]
  | vDT _, vFloat _ => by simp [beqV]
  | vDT _, vStr _ => by simp [beqV]
  | vDT a, vDT b => by simp [beqV]
  | vDT _, vList _ => by simp [beqV]
  | vDT _, vDict _ => by simp [beqV]
  | vList _, vInt _ => by simp [beqV]
  | vList _, vFloat _ => by simp [beqV]
  | vList _, vStr _ => by simp [beqV]
  | vList _, vDT _ => by simp [beqV]
  | vList a, vList b => by
      simp only [beqV, vList.injEq]
      exact beqL_eq a b
  | vList _, vDict _ => by simp [beqV]
  | vDict _, vInt _ => by simp [beqV]
  | vDict _, vFloat _ => by simp [beqV]
  | vDict _, vStr _ => by simp [beqV]
  | vDict _, vDT _ => by simp [beqV]
  | vDict _, vList _ => by simp [beqV]
  | vDict a, vDict b => by
      simp only [beqV, vDict.injEq]
      exact beqD_eq a b

theorem beqL_eq : ∀ xs ys, beqL xs ys = true → xs = ys
  | [], [] => by simp
  | [], _ :: _ => by simp [beqL]
  | _ :: _, [] => by simp [beqL]
  | x :: xs, y :: ys => by
      simp only [beqL, Bool.and_eq_true, List.cons.injEq]
      intro ⟨h1, h2⟩
      exact ⟨beqV_eq x y h1, beqL_eq xs ys h2⟩

theorem beqD_eq : ∀ xs ys, beqD xs ys = true → xs = ys
  | [], [] => by simp
  | [], _ :: _ => by simp [beqD]
  | _ :: _, [] => by simp [beqD]
  | (k, v) :: xs, (k2, v2) :: ys => by
      simp only [beqD, Bool.and_eq_true, List.cons.injEq, Prod.mk.injEq, beq_iff_eq]
      intro ⟨⟨h0, h1⟩, h2⟩
      exact ⟨⟨h0, beqV_eq v v2 h1⟩, beqD_eq xs ys h2⟩

end

instance : DecidableEq PyVal := fun a b =>
  if h : beqV a b = true then .isTrue (beqV_eq a b h)
  else .isFalse (fun hh => h (hh ▸ beqV_refl a))

/-! ## Character classes and case folding (ASCII, as used by the source's patterns) -/

/-- ASCII lower-casing, modelling `re.IGNORECASE` folding and `str.lower()` for the
ASCII keywords and classes the source's patterns use. -/
def lc (c : Char) : Char :=
  if 'A' ≤ c ∧ c ≤ 'Z' then Char.ofNat (c.toNat + 32) else c

/-- ASCII upper-casing, modelling `str.upper()` on ASCII phrases. -/
def ucChar (c : Char) : Char :=
  if 'a' ≤ c ∧ c ≤ 'z' then Char.ofNat (c.toNat - 32) else c

/-- `str.upper()` of a phrase (ASCII). -/
def upperStr (s : String) : String := (s.data.map ucChar).asString

/-- The regex word class `\w` = `[a-zA-Z0-9_]` (ASCII), deciding `\b` boundaries. -/
def isWordChar (c : Char) : Bool :=
  ('a' ≤ c && c ≤ 'z') || ('A' ≤ c && c ≤ 'Z') || ('0' ≤ c && c ≤ '9') || c == '_'

/-- The regex whitespace class `\s` (also `str.strip()`'s default set, ASCII part). -/
def isSpaceChar (c : Char) : Bool :=
  c == ' ' || c == '\t' || c == '\n' || c == '\r' || c == '\x0b' || c == '\x0c'

/-- The field-name class `[a-zA-Z0-9_\.]` of the source's patterns. -/
def isFieldChar (c : Char) : Bool := isWordChar c || c == '.'

/-- The value class `[^\s,]` (comparison, equality and contains values). -/
def isValueChar (c : Char) : Bool := !isSpaceChar c && c != ','

/-- The colon-form category value class `[a-zA-Z0-9_\-\.]`. -/
def isCatValChar (c : Char) : Bool := isWordChar c || c == '-' || c == '.'

/-- The `in`-form category value class `[a-zA-Z0-9_,\.\s\-]`. -/
def isInValChar (c : Char) : Bool :=
  isWordChar c || c == ',' || c == '.' || isSpaceChar c || c == '-'

/-- The field-selection value class `[a-zA-Z0-9_,\.\s]`. -/
def isCsvChar (c : Char) : Bool := isWordChar c || c == ',' || c == '.' || isSpaceChar c

/-- `str.strip()`: drop leading and trailing whitespace. -/
def stripL (l : List Char) : List Char :=
  ((l.dropWhile isSpaceChar).reverse.dropWhile isSpaceChar).reverse

/-- `value.strip("'\"")`: drop leading and trailing single/double quotes. -/
def stripQuotes (l : List Char) : List Char :=
  let isQ : Char → Bool := fun c => c == '\'' || c == '"'
  ((l.dropWhile isQ).reverse.dropWhile isQ).reverse

/-! ## Pattern scanning

`matchesCI w l` matches the literal word `w` (given lower-case) case-insensitively at
the head of `l`, returning the rest; `scanA try_ prev l` models `re.search`: it attempts
an anchored match at every position from left to right (tracking the previous character
for `\b` boundary decisions) and returns the first success. -/

def matchesCI : List Char → List Char → Option (List Char)
  | [], l => some l
  | _ :: _, [] => none
  | w :: ws, c :: cs => if lc c == lc w then matchesCI ws cs else none

def scanA {α : Type} (try_ : Option Char → List Char → Option α) :
    Option Char → List Char → Option α
  | prev, [] => try_ prev []
  | prev, c :: cs =>
    match try_ prev (c :: cs) with
    | some a => some a
    | none => scanA try_ (some c) cs

/-- `re.search` over the whole string. -/
def reSearch {α : Type} (try_ : Option Char → List Char → Option α) (l : List Char) :
    Option α :=
  scanA try_ none l

/-- `\b` between the previous character and a next character `c`: exactly one side is a
word character (start of string counts as non-word). -/
def boundB (prev : Option Char) (c : Char) : Bool :=
  match prev with
  | none => isWordChar c
  | some p => isWordChar p != isWordChar c

/-- `\b` after a word-character token: next char absent or non-word. -/
def boundAfter (l : List Char) : Bool :=
  match l with
  | [] => true
  | c :: _ => !isWordChar c

/-! ## Numeric coercion (`_parse_number` and helpers) -/

/-- Decimal digit list to `Nat` (the value `int()` gives a digit token). -/
def digitsToNat (l : List Char) : Nat :=
  l.foldl (fun a c => 10 * a + (c.toNat - 48)) 0

/-- Models CPython `int(s)` on the tokens this parser can produce (no whitespace —
the value classes exclude it; underscore digit-group separators are not modelled):
optional sign followed by one or more digits. `none` models `ValueError`. -/
def pyIntOf (s : String) : Option Int :=
  match s.data with
  | '-' :: rest => if rest ≠ [] ∧ rest.all Char.isDigit then some (-(digitsToNat rest : Int)) else none
  | '+' :: rest => if rest ≠ [] ∧ rest.all Char.isDigit then some (digitsToNat rest : Int) else none
  | l => if l ≠ [] ∧ l.all Char.isDigit then some (digitsToNat l : Int) else none

/-- Mantissa of a float literal: `digits [. digits]` or `. digits`, at least one digit.
Returns (numerator, number of fraction digits, rest). -/
def floatMantissa (l : List Char) : Option (Nat × Nat × List Char) :=
  let ip := l.takeWhile Char.isDigit
  let r1 := l.dropWhile Char.isDigit
  match r1 with
  | '.' :: r2 =>
    let fp := r2.takeWhile Char.isDigit
    let r3 := r2.dropWhile Char.isDigit
    if ip.isEmpty ∧ fp.isEmpty then none
    else some (digitsToNat ip * 10 ^ fp.length + digitsToNat fp, fp.length, r3)
  | _ => if ip.isEmpty then none else some (digitsToNat ip, 0, r1)

/-- Optional exponent `[(e|E) [sign] digits]`; returns the signed exponent and rest. -/
def floatExponent (l : List Char) : Option (Int × List Char) :=
  match l with
  | 'e' :: r | 'E' :: r =>
    let signAndDigits : Option (Bool × List Char) :=
      match r with
      | '-' :: r2 => some (true, r2)
      | '+' :: r2 => some (false, r2)
      | _ => some (false, r)
    match signAndDigits with
    | some (neg, r2) =>
      let ds := r2.takeWhile Char.isDigit
      if ds.isEmpty then none
      else some (if neg then -(digitsToNat ds : Int) else (digitsToNat ds : Int),
                 r2.dropWhile Char.isDigit)
    | none => none
  | _ => some (0, l)

/-- Models CPython `float(s)` on the finite decimal tokens the parser coerces
(`inf`/`nan` spellings contain no `.` and never reach the float branch):
`[sign] mantissa [exponent]`, the whole string consumed. `none` models `ValueError`. -/
def pyFloatOf (s : String) : Option ℚ :=
  let (neg, body) : Bool × List Char :=
    match s.data with
    | '-' :: r => (true, r)
    | '+' :: r => (false, r)
    | l => (false, l)
  match floatMantissa body with
  | none => none
  | some (mant, fracDigits, r1) =>
    match floatExponent r1 with
    | none => none
    | some (ex, r2) =>
      if r2 ≠ [] then none
      else
        let signedMant : Int := if neg then -(mant : Int) else (mant : Int)
        if 0 ≤ ex then some (mkRat (signedMant * 10 ^ ex.toNat) (10 ^ fracDigits))
        else some (mkRat signedMant (10 ^ fracDigits * 10 ^ (-ex).toNat))

/-- `_parse_number`: `try: if "." in val: return float(val); return int(val)
except Exception: return val`. -/
def parse_number (val : String) : PyVal :=
  if val.data.contains '.' then
    match pyFloatOf val with
    | some q => vFloat q
    | none => vStr val
  else
    match pyIntOf val with
    | some n => vInt n
    | none => vStr val

/-- `_parse_list_csv`: split on `,`, strip each part, drop empties. -/
def parse_list_csv (l : List Char) : List (List Char) :=
  ((l.splitOn ',').map stripL).filter (fun t => !t.isEmpty)

/-! ## Recognizers (the `_parse_*` helpers, one per source pattern) -/

/-- Anchored attempt for `\b<word>\b` (case-insensitive); `<word>` is all word
characters, so both `\b` are word/non-word boundaries. -/
def tryWord (w : List Char) (prev : Option Char) (l : List Char) : Option Unit :=
  match l with
  | [] => none
  | c :: _ =>
    if boundB prev c then
      match matchesCI w l with
      | some rest => if boundAfter rest then some () else none
      | none => none
    else none

/-- `re.search(rf"\b{key}\b", phrase, re.IGNORECASE)` as a Bool. -/
def hasWordCI (w : String) (l : List Char) : Bool := (reSearch (tryWord w.data) l).isSome

/-- One alternative of `(day|days|week|weeks|month|months)\b`. -/
def tryUnitWord (w : String) (l : List Char) : Option (List Char × List Char) :=
  match matchesCI w.data l with
  | some r => if boundAfter r then some (w.data, r) else none
  | none => none

/-- The unit alternation, in the source pattern's order (backtracking over the
alternatives when the trailing `\b` fails, exactly as the regex engine does). -/
def tryUnit (l : List Char) : Option (List Char × List Char) :=
  (tryUnitWord "day" l) <|> (tryUnitWord "days" l) <|> (tryUnitWord "week" l) <|>
  (tryUnitWord "weeks" l) <|> (tryUnitWord "month" l) <|> (tryUnitWord "months" l)

/-- Anchored `last\s+(\d+)\s*(day|days|week|weeks|month|months)\b` (no leading `\b`
in the source pattern).  Returns (digits, unit, rest).  Greedy `\s+`/`\d+`/`\s*` need
no backtracking: a surrendered space is never a digit or unit letter, a surrendered
digit never a unit letter. -/
def tryLast (l : List Char) : Option (List Char × List Char × List Char) :=
  match matchesCI "last".data l with
  | none => none
  | some r1 =>
    let ws1 := r1.takeWhile isSpaceChar
    if ws1.isEmpty then none
    else
      let r2 := r1.dropWhile isSpaceChar
      let ds := r2.takeWhile Char.isDigit
      if ds.isEmpty then none
      else
        let r3 := r2.dropWhile Char.isDigit
        let r4 := r3.dropWhile isSpaceChar
        match tryUnit r4 with
        | some (u, rest) => some (ds, u, rest)
        | none => none

/-- `re.search` for the `last ...` pattern, returning the matched text `m.group(0)`. -/
def search_last (l : List Char) : Option (List Char) :=
  reSearch (fun _ s =>
    match tryLast s with
    | some (_, _, rest) => some (s.take (s.length - rest.length))
    | none => none) l

def startsWithL : List Char → List Char → Bool
  | [], _ => true
  | _ :: _, [] => false
  | a :: as, b :: bs => a == b && startsWithL as bs

/-- Python `"day" in unit` substring containment. -/
def containsSub (w : List Char) : List Char → Bool
  | [] => w.isEmpty
  | c :: r => startsWithL w (c :: r) || containsSub w r

/-- `_apply_date_range(tokens, now)`: lower-cases and strips the tokens, recognizes
`today`/`yesterday`, else re-matches the anchored `last ...` pattern (`re.match`).
This total function is the value semantics on in-range dates; the faithful fallible
model with the `OverflowError` paths is `apply_date_range_exc` below. -/
def apply_date_range (tokens : List Char) (now : DT) : Option Doc :=
  let t := stripL (tokens.map lc)
  if t = "today".data then
    let start := floorDay now
    let e := addDays start 1
    some [("created_at", vDict [("$gte", vDT start), ("$lt", vDT e)])]
  else if t = "yesterday".data then
    let e := floorDay now
    let start := addDays e (-1)
    some [("created_at", vDict [("$gte", vDT start), ("$lt", vDT e)])]
  else
    match tryLast t with
    | some (ds, unit, _) =>
      let qty := digitsToNat ds
      -- `if "day" in unit: days=qty elif "week" in unit: weeks=qty else: days=qty*30`
      let deltaDays : Int :=
        if containsSub "day".data unit then (qty : Int)
        else if containsSub "week".data unit then 7 * (qty : Int)
        else ((qty * 30 : Nat) : Int)
      some [("created_at", vDict [("$gte", vDT (addDays now (-deltaDays)))])]
    | none => none

/-- Shared tail of the comparison pattern: `\s*([^\s,]+)` after the operator. -/
def finishComp (field : List Char) (op : String) (r : List Char) : Option Doc :=
  let r2 := r.dropWhile isSpaceChar
  let v := r2.takeWhile isValueChar
  if v.isEmpty then none
  else some [(field.asString, vDict [(op, parse_number v.asString)])]

/-- Anchored `\b([a-zA-Z0-9_\.]+)\s*(>=|<=|>|<)\s*([^\s,]+)`.  The greedy field run
needs no backtracking: a surrendered field character is never whitespace or `<`/`>`.
The alternation tries `>=`, `<=`, `>`, `<` in the source's order. -/
def tryComp (prev : Option Char) (l : List Char) : Option Doc :=
  match l with
  | [] => none
  | c :: _ =>
    if isFieldChar c && boundB prev c then
      let field := l.takeWhile isFieldChar
      let r1 := (l.dropWhile isFieldChar).dropWhile isSpaceChar
      match r1 with
      | c1 :: r2 =>
        if c1 = '>' then
          match r2 with
          | '=' :: r3 => finishComp field "$gte" r3
          | _ => finishComp field "$gt" r2
        else if c1 = '<' then
          match r2 with
          | '=' :: r3 => finishComp field "$lte" r3
          | _ => finishComp field "$lt" r2
        else none
      | [] => none
    else none

/-- `_parse_comparison`. -/
def parse_comparison (l : List Char) : Option Doc := reSearch tryComp l

/-- Tail of the equality pattern after the keyword: `\s+([^\s,]+)`, then quote
stripping and numeric coercion. -/
def finishEq (field : List Char) (r : List Char) : Option Doc :=
  let ws := r.takeWhile isSpaceChar
  if ws.isEmpty then none
  else
    let r2 := r.dropWhile isSpaceChar
    let v := r2.takeWhile isValueChar
    if v.isEmpty then none
    else some [(field.asString, parse_number (stripQuotes v).asString)]

/-- Anchored `\b([a-zA-Z0-9_\.]+)\s+(equals|is)\s+([^\s,]+)` (case-insensitive
keyword; alternation order `equals` then `is`, retried on failure of the tail). -/
def tryEq (prev : Option Char) (l : List Char) : Option Doc :=
  match l with
  | [] => none
  | c :: _ =>
    if isFieldChar c && boundB prev c then
      let field := l.takeWhile isFieldChar
      let r0 := l.dropWhile isFieldChar
      if (r0.takeWhile isSpaceChar).isEmpty then none
      else
        let r1 := r0.dropWhile isSpaceChar
        (match matchesCI "equals".data r1 with
         | some r2 => finishEq field r2
         | none => none) <|>
        (match matchesCI "is".data r1 with
         | some r2 => finishEq field r2
         | none => none)
    else none

/-- `_parse_equality`. -/
def parse_equality (l : List Char) : Option Doc := reSearch tryEq l

/-- Anchored `\b([a-zA-Z0-9_\.]+)\s*:\s*([a-zA-Z0-9_\-\.]+)` (colon form; the value
is kept verbatim, no numeric coercion). -/
def tryColon (prev : Option Char) (l : List Char) : Option Doc :=
  match l with
  | [] => none
  | c :: _ =>
    if isFieldChar c && boundB prev c then
      let field := l.takeWhile isFieldChar
      let r1 := (l.dropWhile isFieldChar).dropWhile isSpaceChar
      match r1 with
      | c1 :: r2 =>
        if c1 = ':' then
          let r3 := r2.dropWhile isSpaceChar
          let v := r3.takeWhile isCatValChar
          if v.isEmpty then none
          else some [(field.asString, vStr v.asString)]
        else none
      | [] => none
    else none

/-- Anchored `\b([a-zA-Z0-9_\.]+)\s+in\s+([a-zA-Z0-9_,\.\s\-]+)`.  The value class
contains `\s`, so when nothing follows the greedy `\s+` it backtracks one space and
the value group captures that space (yielding an empty CSV list), exactly as the
regex engine does. -/
def tryIn (prev : Option Char) (l : List Char) : Option Doc :=
  match l with
  | [] => none
  | c :: _ =>
    if isFieldChar c && boundB prev c then
      let field := l.takeWhile isFieldChar
      let r0 := l.dropWhile isFieldChar
      if (r0.takeWhile isSpaceChar).isEmpty then none
      else
        match matchesCI "in".data (r0.dropWhile isSpaceChar) with
        | none => none
        | some r2 =>
          let ws2 := r2.takeWhile isSpaceChar
          if ws2.isEmpty then none
          else
            let v := (r2.dropWhile isSpaceChar).takeWhile isInValChar
            let group :=
              if v.isEmpty then
                if 2 ≤ ws2.length then some (ws2.drop (ws2.length - 1)) else none
              else some v
            match group with
            | some g =>
              let converted := (parse_list_csv g).map (fun t => parse_number t.asString)
              some [(field.asString, vDict [("$in", vList converted)])]
            | none => none
    else none

/-- `_parse_category`: colon form first, else membership form. -/
def parse_category (l : List Char) : Option Doc :=
  match reSearch tryColon l with
  | some d => some d
  | none => reSearch tryIn l

/-- Regex special characters escaped by Python 3.7+ `re.escape`. -/
def isSpecialRe (c : Char) : Bool :=
  c == '(' || c == ')' || c == '[' || c == ']' || c == '{' || c == '}' ||
  c == '?' || c == '*' || c == '+' || c == '-' || c == '|' || c == '^' ||
  c == '$' || c == '\\' || c == '.' || c == '&' || c == '~' || c == '#' ||
  isSpaceChar c

/-- `re.escape`. -/
def reEscape (l : List Char) : List Char :=
  l.foldr (fun c acc => if isSpecialRe c then '\\' :: c :: acc else c :: acc) []

/-- Anchored `\b([a-zA-Z0-9_\.]+)\s+contains\s+([^\s,]+)` → case-insensitive
escaped-substring regex predicate. -/
def tryContains (prev : Option Char) (l : List Char) : Option Doc :=
  match l with
  | [] => none
  | c :: _ =>
    if isFieldChar c && boundB prev c then
      let field := l.takeWhile isFieldChar
      let r0 := l.dropWhile isFieldChar
      if (r0.takeWhile isSpaceChar).isEmpty then none
      else
        match matchesCI "contains".data (r0.dropWhile isSpaceChar) with
        | none => none
        | some r2 =>
          let ws2 := r2.takeWhile isSpaceChar
          if ws2.isEmpty then none
          else
            let v := (r2.dropWhile isSpaceChar).takeWhile isValueChar
            if v.isEmpty then none
            else
              let text := reEscape (stripQuotes v)
              some [(field.asString,
                     vDict [("$regex", vStr text.asString), ("$options", vStr "i")])]
    else none

/-- `_parse_contains`. -/
def parse_contains (l : List Char) : Option Doc := reSearch tryContains l

/-- Anchored `sort\s+by\s+([a-zA-Z0-9_\.]+)(?:\s+(asc|desc))?` (no leading `\b` in the
source pattern; the optional direction group defaults to `asc`; `1 if dir != "desc"
else -1`). -/
def trySort (_prev : Option Char) (l : List Char) : Option (String × Int) :=
  match matchesCI "sort".data l with
  | none => none
  | some r1 =>
    if (r1.takeWhile isSpaceChar).isEmpty then none
    else
      match matchesCI "by".data (r1.dropWhile isSpaceChar) with
      | none => none
      | some r2 =>
        if (r2.takeWhile isSpaceChar).isEmpty then none
        else
          let r3 := r2.dropWhile isSpaceChar
          let field := r3.takeWhile isFieldChar
          if field.isEmpty then none
          else
            let r4 := r3.dropWhile isFieldChar
            let dirTok : String :=
              if (r4.takeWhile isSpaceChar).isEmpty then "asc"
              else
                let r5 := r4.dropWhile isSpaceChar
                match matchesCI "asc".data r5 with
                | some _ => "asc"
                | none =>
                  match matchesCI "desc".data r5 with
                  | some _ => "desc"
                  | none => "asc"
            some (field.asString, if dirTok != "desc" then 1 else -1)

/-- `_parse_sort`. -/
def parse_sort (l : List Char) : Option (String × Int) := reSearch trySort l

/-- Anchored `\b<kw>\s+(\d+)\b` for `top`, `limit`, `offset`. -/
def tryKwNum (w : String) (prev : Option Char) (l : List Char) : Option Nat :=
  match l with
  | [] => none
  | c :: _ =>
    if boundB prev c then
      match matchesCI w.data l with
      | some r1 =>
        if (r1.takeWhile isSpaceChar).isEmpty then none
        else
          let r2 := r1.dropWhile isSpaceChar
          let ds := r2.takeWhile Char.isDigit
          if ds.isEmpty then none
          else if boundAfter (r2.dropWhile Char.isDigit) then some (digitsToNat ds)
          else none
      | none => none
    else none

/-- `_parse_limit_offset`: `top` takes precedence over `limit`; `offset` independent. -/
def parse_limit_offset (l : List Char) : Option Nat × Option Nat :=
  let m1 := reSearch (tryKwNum "top") l
  let m2 := reSearch (tryKwNum "limit") l
  let m3 := reSearch (tryKwNum "offset") l
  (match m1 with | some n => some n | none => m2, m3)

/-- Anchored `\b(fields|select)\s+([a-zA-Z0-9_,\.\s]+)` → CSV field list.  The value
class contains `\s`, with the same one-space backtracking as the `in` form. -/
def tryFields (prev : Option Char) (l : List Char) : Option (List String) :=
  match l with
  | [] => none
  | c :: _ =>
    if boundB prev c then
      let kw :=
        match matchesCI "fields".data l with
        | some r => some r
        | none => matchesCI "select".data l
      match kw with
      | none => none
      | some r1 =>
        let ws := r1.takeWhile isSpaceChar
        if ws.isEmpty then none
        else
          let v := (r1.dropWhile isSpaceChar).takeWhile isCsvChar
          let group :=
            if v.isEmpty then
              if 2 ≤ ws.length then some (ws.drop (ws.length - 1)) else none
            else some v
          match group with
          | some g => some ((parse_list_csv g).map List.asString)
          | none => none
    else none

/-- `_parse_fields`. -/
def parse_fields (l : List Char) : Option (List String) := reSearch tryFields l

/-! ## Dict primitives and the predicate merger -/

/-- First value stored under key `k` (Python dict lookup; keys are unique in dicts
this code builds). -/
def lookupD : Doc → String → Option PyVal
  | [], _ => none
  | p :: rest, k => if p.1 == k then some p.2 else lookupD rest k

/-- `d[k] = v`: replace in place (position preserved) or append. -/
def setK (d : Doc) (k : String) (v : PyVal) : Doc :=
  if d.any (fun p => p.1 == k) then d.map (fun p => if p.1 == k then (k, v) else p)
  else d ++ [(k, v)]

/-- `d.pop(k)`. -/
def popK (d : Doc) (k : String) : Doc := d.filter (fun p => p.1 != k)

/-- `dst.update(src)` for operator maps. -/
def updateD (dst src : Doc) : Doc := src.foldl (fun a p => setK a p.1 p.2) dst

/-- `isinstance(x, dict)`. -/
def isDictV : PyVal → Bool
  | vDict _ => true
  | _ => false

/-- The entries of a dict value (only inspected under an `isDictV` guard). -/
def asDict : PyVal → Doc
  | vDict es => es
  | _ => []

/-- One iteration of `_merge_and`'s loop body for the pair `(k, v)`. -/
def mergeStep (dst : Doc) (k : String) (v : PyVal) : Doc :=
  match lookupD dst k with
  | none => dst ++ [(k, v)]
  | some existing =>
    if isDictV existing && isDictV v then
      setK dst k (vDict (updateD (asDict existing) (asDict v)))
    else
      let rest := popK dst k
      let conds : List PyVal := [vDict [(k, existing)], vDict [(k, v)]]
      match lookupD rest "$and" with
      | some (vList zs) => setK rest "$and" (vList (zs ++ conds))
      | _ =>
        let andList := rest.map (fun p => vDict [(p.1, p.2)])
        [("$and", vList (andList ++ conds))]

/-- `_merge_and(dst, src)`. -/
def merge_and (dst src : Doc) : Doc := src.foldl (fun a p => mergeStep a p.1 p.2) dst

/-- `_collect_filters(phrase, now)`: the fixed recognizer order of the source. -/
def collect_filters (phrase : List Char) (now : DT) : Doc :=
  let filt : Doc := []
  let filt := if hasWordCI "today" phrase then
      match apply_date_range "today".data now with
      | some cond => merge_and filt cond
      | none => filt
    else filt
  let filt := if hasWordCI "yesterday" phrase then
      match apply_date_range "yesterday".data now with
      | some cond => merge_and filt cond
      | none => filt
    else filt
  let filt := match search_last phrase with
    | some g0 =>
      match apply_date_range g0 now with
      | some cond => merge_and filt cond
      | none => filt
    | none => filt
  let filt := match parse_comparison phrase with
    | some d => merge_and filt d
    | none => filt
  let filt := match parse_equality phrase with
    | some d => merge_and filt d
    | none => filt
  let filt := match parse_category phrase with
    | some d => merge_and filt d
    | none => filt
  let filt := match parse_contains phrase with
    | some d => merge_and filt d
    | none => filt
  filt

/-- `_ensure_projection(fields)`: `None` for falsy input, else `{f: 1, ...}` with the
`_id` key injected when absent. -/
def ensure_projection (fields : Option (List String)) : Option Doc :=
  match fields with
  | none => none
  | some fs =>
    if fs.isEmpty then none
    else
      let proj := fs.foldl (fun a f => setK a f (vInt 1)) []
      some (if proj.any (fun p => p.1 == "_id") then proj else proj ++ [("_id", vInt 1)])

/-- The query descriptor `{filter, projection?, sort?, limit?, offset?}`; a `none`
field models an absent key. -/
structure QueryOut where
  filter : Doc
  projection : Option Doc
  sort : Option (String × Int)
  limit : Option Nat
  offset : Option Nat
deriving DecidableEq, Repr

/-- `parse_nlq_to_query(nlq)`.  The `wallClock` argument is the instant the source
reads from the wall clock via `_now_utc()` inside of the function — the source takes
no time parameter.  `nlq = none` models a `None` argument (`(nlq or "")` coalesces
falsy input to `""`).  `projection`/`sort` truthiness: `_ensure_projection` never
returns an empty dict and a sort spec is always a 2-tuple, so attachment is exactly
`isSome`; `limit`/`offset` attach on `is not None`. -/
def parse_nlq_to_query (nlq : Option String) (wallClock : DT) : QueryOut :=
  let phrase := stripL (nlq.getD "").data
  let now := wallClock
  let filterDoc := collect_filters phrase now
  let sortSpec := parse_sort phrase
  let lo := parse_limit_offset phrase
  let fields := parse_fields phrase
  let projection := ensure_projection fields
  { filter := filterDoc, projection := projection, sort := sortSpec,
    limit := lo.1, offset := lo.2 }

/-- `timedelta`'s day-magnitude bound: `timedelta(days=d)` (and `timedelta(weeks=w)`
normalized to `7*w` days) raises `OverflowError` when the day count exceeds this. -/
def timedeltaMaxDays : Nat := 999999999

/-- `date.min.toordinal()`. -/
def minOrdinal : Int := 1

/-- `date.max.toordinal()` (9999-12-31). -/
def maxOrdinal : Int := 3652059

/-- `d + timedelta(days=n)` (subtraction via negative `n`): the result if it stays a
representable datetime, else `OverflowError`. -/
def pyShiftDays (t : DT) (n : Int) : Except Unit DT :=
  let r : DT := ⟨t.days + n, t.sod⟩
  if minOrdinal ≤ r.days ∧ r.days ≤ maxOrdinal then .ok r else .error ()

/-- Faithful fallible model of `_apply_date_range` for a representable `now`:
`.error ()` is the `OverflowError` CPython raises when the constructed `timedelta`
exceeds its day-magnitude bound or when the datetime arithmetic leaves the supported
date range; `.ok none` is the no-match return. -/
def apply_date_range_exc (tokens : List Char) (now : DT) : Except Unit (Option Doc) :=
  let t := stripL (tokens.map lc)
  if t = "today".data then
    let start := floorDay now
    match pyShiftDays start 1 with
    | .error e => .error e
    | .ok en => .ok (some [("created_at", vDict [("$gte", vDT start), ("$lt", vDT en)])])
  else if t = "yesterday".data then
    let en := floorDay now
    match pyShiftDays en (-1) with
    | .error e => .error e
    | .ok start => .ok (some [("created_at", vDict [("$gte", vDT start), ("$lt", vDT en)])])
  else
    match tryLast t with
    | some (ds, unit, _) =>
      let qty := digitsToNat ds
      let deltaDays : Int :=
        if containsSub "day".data unit then (qty : Int)
        else if containsSub "week".data unit then 7 * (qty : Int)
        else ((qty * 30 : Nat) : Int)
      if timedeltaMaxDays < deltaDays.natAbs then .error ()
      else
        match pyShiftDays now (-deltaDays) with
        | .error e => .error e
        | .ok start => .ok (some [("created_at", vDict [("$gte", vDT start)])])
    | none => .ok none

/-- Faithful fallible model of `_collect_filters`: an `OverflowError` raised by a
date-range branch propagates (aborting the remaining recognizers), exactly as the
uncaught exception does in the source. -/
def collect_filters_exc (phrase : List Char) (now : DT) : Except Unit Doc :=
  match (if hasWordCI "today" phrase then apply_date_range_exc "today".data now
         else .ok none) with
  | .error e => .error e
  | .ok o1 =>
    let f1 : Doc := match o1 with | some cond => merge_and [] cond | none => []
    match (if hasWordCI "yesterday" phrase then apply_date_range_exc "yesterday".data now
           else .ok none) with
    | .error e => .error e
    | .ok o2 =>
      let f2 := match o2 with | some cond => merge_and f1 cond | none => f1
      match (match search_last phrase with
             | some g0 => apply_date_range_exc g0 now
             | none => .ok none) with
      | .error e => .error e
      | .ok o3 =>
        let f3 := match o3 with | some cond => merge_and f2 cond | none => f2
        let f4 := match parse_comparison phrase with | some d => merge_and f3 d | none => f3
        let f5 := match parse_equality phrase with | some d => merge_and f4 d | none => f4
        let f6 := match parse_category phrase with | some d => merge_and f5 d | none => f5
        let f7 := match parse_contains phrase with | some d => merge_and f6 d | none => f6
        .ok f7

deriving instance DecidableEq for Except

/-- Faithful fallible model of `parse_nlq_to_query`: the filter collection runs
first and an `OverflowError` raised there escapes the function uncaught. -/
def parse_nlq_to_query_exc (nlq : Option String) (wallClock : DT) : Except Unit QueryOut :=
  let phrase := stripL (nlq.getD "").data
  match collect_filters_exc phrase wallClock with
  | .error e => .error e
  | .ok filterDoc =>
    let sortSpec := parse_sort phrase
    let lo := parse_limit_offset phrase
    let projection := ensure_projection (parse_fields phrase)
    .ok { filter := filterDoc, projection := projection, sort := sortSpec,
          limit := lo.1, offset := lo.2 }

/-! ## Observers used to state the claims -/

/-- Top-level keys of a filter. -/
def topKeys (d : Doc) : List String := d.map (fun p => p.1)

/-- The conjunction list stored under the reserved `$and` key (empty when absent or
not a list). -/
def andItems (d : Doc) : List PyVal :=
  match lookupD d "$and" with
  | some (vList xs) => xs
  | _ => []

/-- Whether the `$and` entry, if present, is a list. -/
def andEntryIsList (d : Doc) : Bool :=
  match lookupD d "$and" with
  | none => true
  | some (vList _) => true
  | some _ => false

/-- Keys of one conjunction-list item. -/
def itemKeys : PyVal → List String
  | vDict es => es.map (fun p => p.1)
  | _ => []

/-- All field names of a list of conjunction items. -/
def fieldsOfItems (items : List PyVal) : List String :=
  items.foldr (fun it acc => itemKeys it ++ acc) []

/-- All field names occurring inside the `$and` conjunction list. -/
def andFields (d : Doc) : List String := fieldsOfItems (andItems d)

/-- The FilterTree invariant claimed by the spec: at most one top-level entry per
field, a list-shaped `$and` entry, and no field that occurs inside the conjunction
list also occurs as a top-level key. -/
def elevInvariant (d : Doc) : Prop :=
  (topKeys d).Nodup ∧ andEntryIsList d = true ∧ ∀ f ∈ andFields d, f ∉ topKeys d

instance (d : Doc) : Decidable (elevInvariant d) := by
  unfold elevInvariant; infer_instance

/-- First predicate attached to field `f` inside a conjunction list. -/
def findAndPred (f : String) : List PyVal → Option PyVal
  | [] => none
  | it :: rest =>
    match it with
    | vDict es =>
      match lookupD es f with
      | some v => some v
      | none => findAndPred f rest
    | _ => findAndPred f rest

/-- The predicate a filter attaches to field `f`: its top-level entry if present,
else the first entry for `f` inside the `$and` conjunction list. -/
def lookupPred (d : Doc) (f : String) : Option PyVal :=
  match lookupD d f with
  | some v => some v
  | none => findAndPred f (andItems d)

/-- `matchesCI w (pre ++ X)` fails inside `pre`, for every continuation `X`. -/
def failsWithin : List Char → List Char → Bool
  | _, [] => false
  | [], _ :: _ => false
  | w0 :: ws, c :: cs => if lc c == lc w0 then failsWithin ws cs else true

/-- Every non-empty suffix of `l` makes `matchesCI w` fail within it. -/
def allSuffixFailW (w : List Char) : List Char → Bool
  | [] => true
  | c :: r => failsWithin w (c :: r) && allSuffixFailW w r

/-- Every non-empty suffix of `l` itself fails to match `w`. -/
def suffixesOK (w : List Char) : List Char → Bool
  | [] => true
  | c :: r => (matchesCI w (c :: r)).isNone && suffixesOK w r

/-- The ten decimal digit characters. -/
def decimalDigits : List Char := ['0', '1', '2', '3', '4', '5', '6', '7', '8', '9']

/-- The day-equivalent of one unit word, as the spec states it: day = 1 day,
week = 7 days, month = exactly 30 days. -/
def unitDays (u : String) : Int :=
  if u = "day" ∨ u = "days" then 1 else if u = "week" ∨ u = "weeks" then 7 else 30

/-- An optional recognizer fragment that, when present, is a single-entry dict on a
field other than `created_at` (and not the reserved key). -/
def fragOnOtherField (o : Option Doc) : Prop :=
  ∀ d, o = some d → ∃ k v, d = [(k, v)] ∧ k ≠ "created_at" ∧ k ≠ "$and"

mutual

/-- Whether the string value `needle` occurs anywhere inside a value. -/
def mentionsV (needle : String) : PyVal → Bool
  | vStr s => s == needle
  | vList xs => mentionsL needle xs
  | vDict es => mentionsD needle es
  | _ => false

def mentionsL (needle : String) : List PyVal → Bool
  | [] => false
  | x :: xs => mentionsV needle x || mentionsL needle xs

def mentionsD (needle : String) : List (String × PyVal) → Bool
  | [] => false
  | (_, v) :: xs => mentionsV needle v || mentionsD needle xs

end

/-- Whether a filter mentions the string value `needle` anywhere. -/
def filterMentions (needle : String) (d : Doc) : Bool := mentionsD needle d

/-! ## Dictionary lemmas -/

theorem topKeys_nil : topKeys [] = [] := rfl

theorem topKeys_cons (p : String × PyVal) (d : Doc) :
    topKeys (p :: d) = p.1 :: topKeys d := rfl

theorem lookupD_eq_none {d : Doc} {k : String} :
    lookupD d k = none ↔ k ∉ topKeys d := by
  induction d with
  | nil => simp [lookupD, topKeys]
  | cons p rest ih =>
    rw [lookupD, topKeys_cons, List.mem_cons]
    by_cases h : p.1 = k
    · simp [h]
    · rw [if_neg (by simpa using h), ih]
      constructor
      · intro hn hm
        rcases hm with hm | hm
        · exact h hm.symm
        · exact hn hm
      · intro hn hm
        exact hn (Or.inr hm)

theorem hasKeyD {d : Doc} {k : String} :
    d.any (fun p => p.1 == k) = true ↔ k ∈ topKeys d := by
  induction d with
  | nil => simp [topKeys]
  | cons p rest ih =>
    rw [List.any_cons, topKeys_cons, List.mem_cons, Bool.or_eq_true, beq_iff_eq, ih]
    constructor
    · rintro (h | h)
      · exact Or.inl h.symm
      · exact Or.inr h
    · rintro (h | h)
      · exact Or.inl h.symm
      · exact Or.inr h

theorem lookupD_append_single_ne {d : Doc} {k f : String} {v : PyVal} (h : f ≠ k) :
    lookupD (d ++ [(k, v)]) f = lookupD d f := by
  induction d with
  | nil =>
    rw [List.nil_append, lookupD, lookupD, if_neg (by simpa using Ne.symm h)]
    rfl
  | cons p rest ih =>
    rw [List.cons_append, lookupD, lookupD]
    by_cases hp : p.1 = f
    · rw [if_pos (by simpa using hp), if_pos (by simpa using hp)]
    · rw [if_neg (by simpa using hp), if_neg (by simpa using hp)]
      exact ih

theorem topKeys_append_single (d : Doc) (k : String) (v : PyVal) :
    topKeys (d ++ [(k, v)]) = topKeys d ++ [k] := by
  simp [topKeys]

theorem topKeys_map_replace (d : Doc) (k : String) (v : PyVal) :
    topKeys (d.map (fun p => if p.1 == k then (k, v) else p)) = topKeys d := by
  induction d with
  | nil => rfl
  | cons p rest ih =>
    rw [List.map_cons, topKeys_cons, topKeys_cons, ih]
    by_cases hp : p.1 = k
    · rw [if_pos (by simpa using hp)]
      rw [hp]
    · rw [if_neg (by simpa using hp)]

theorem topKeys_setK_of_mem {d : Doc} {k : String} (v : PyVal) (h : k ∈ topKeys d) :
    topKeys (setK d k v) = topKeys d := by
  rw [setK, if_pos (hasKeyD.mpr h)]
  exact topKeys_map_replace d k v

theorem lookupD_map_replace_ne {d : Doc} {k f : String} {v : PyVal} (h : f ≠ k) :
    lookupD (d.map (fun p => if p.1 == k then (k, v) else p)) f = lookupD d f := by
  induction d with
  | nil => rfl
  | cons p rest ih =>
    rw [List.map_cons]
    by_cases hp : p.1 = k
    · rw [if_pos (by simpa using hp), lookupD, lookupD]
      rw [if_neg (show ¬((((k, v) : String × PyVal).1 == f) = true) by simpa using Ne.symm h)]
      rw [if_neg (by rw [hp]; simpa using Ne.symm h)]
      exact ih
    · rw [if_neg (by simpa using hp), lookupD, lookupD]
      by_cases hpf : p.1 = f
      · rw [if_pos (by simpa using hpf), if_pos (by simpa using hpf)]
      · rw [if_neg (by simpa using hpf), if_neg (by simpa using hpf)]
        exact ih

theorem lookupD_setK_ne {d : Doc} {k f : String} {v : PyVal} (h : f ≠ k) :
    lookupD (setK d k v) f = lookupD d f := by
  rw [setK]
  by_cases hk : d.any (fun p => p.1 == k) = true
  · rw [if_pos hk]
    exact lookupD_map_replace_ne h
  · rw [if_neg hk]
    exact lookupD_append_single_ne h

theorem lookupD_setK_self (d : Doc) (k : String) (v : PyVal) :
    lookupD (setK d k v) k = some v := by
  rw [setK]
  by_cases hk : d.any (fun p => p.1 == k) = true
  · rw [if_pos hk]
    induction d with
    | nil => simp at hk
    | cons p rest ih =>
      rw [List.map_cons]
      by_cases hp : p.1 = k
      · rw [if_pos (by simpa using hp), lookupD, if_pos (by simp)]
      · rw [if_neg (by simpa using hp), lookupD, if_neg (by simpa using hp)]
        apply ih
        rw [List.any_cons, Bool.or_eq_true] at hk
        rcases hk with hk | hk
        · exact absurd (beq_iff_eq.mp hk) hp
        · exact hk
  · rw [if_neg hk]
    induction d with
    | nil => rw [List.nil_append, lookupD, if_pos (by simp)]
    | cons p rest ih =>
      rw [List.any_cons, Bool.or_eq_true] at hk
      push_neg at hk
      rw [List.cons_append, lookupD, if_neg hk.1]
      exact ih hk.2

theorem lookupD_popK_ne {d : Doc} {k f : String} (h : f ≠ k) :
    lookupD (popK d k) f = lookupD d f := by
  induction d with
  | nil => rfl
  | cons p rest ih =>
    rw [popK] at ih ⊢
    rw [List.filter_cons]
    by_cases hp : p.1 = k
    · rw [if_neg (by simp [hp])]
      rw [lookupD, if_neg (show ¬(p.1 == f) = true by
        simp only [beq_iff_eq]
        intro hh
        exact h (hh ▸ hp))]
      exact ih
    · rw [if_pos (by simpa using hp)]
      rw [lookupD, lookupD]
      by_cases hpf : p.1 = f
      · rw [if_pos (by simpa using hpf), if_pos (by simpa using hpf)]
      · rw [if_neg (by simpa using hpf), if_neg (by simpa using hpf)]
        exact ih

theorem topKeys_popK (d : Doc) (k : String) :
    topKeys (popK d k) = (topKeys d).filter (fun f => f != k) := by
  induction d with
  | nil => rfl
  | cons p rest ih =>
    rw [popK] at ih ⊢
    rw [List.filter_cons, topKeys_cons, List.filter_cons]
    by_cases hp : p.1 = k
    · rw [if_neg (by simp [hp]), if_neg (by simp [hp])]
      exact ih
    · rw [if_pos (by simpa using hp), if_pos (by simpa using hp), topKeys_cons, ih]

theorem fieldsOfItems_nil : fieldsOfItems [] = [] := rfl

theorem fieldsOfItems_cons (x : PyVal) (xs : List PyVal) :
    fieldsOfItems (x :: xs) = itemKeys x ++ fieldsOfItems xs := rfl

theorem fieldsOfItems_append (xs ys : List PyVal) :
    fieldsOfItems (xs ++ ys) = fieldsOfItems xs ++ fieldsOfItems ys := by
  induction xs with
  | nil => rfl
  | cons x xs ih =>
    rw [List.cons_append, fieldsOfItems_cons, fieldsOfItems_cons, ih, List.append_assoc]

theorem lookupD_mem {d : Doc} {f : String} {w : PyVal} (h : lookupD d f = some w) :
    f ∈ topKeys d := by
  by_contra hm
  rw [lookupD_eq_none.mpr hm] at h
  exact Option.noConfusion h

theorem andItems_congr {d1 d2 : Doc} (h : lookupD d1 "$and" = lookupD d2 "$and") :
    andItems d1 = andItems d2 := by
  unfold andItems
  rw [h]

theorem andEntryIsList_congr {d1 d2 : Doc}
    (h : lookupD d1 "$and" = lookupD d2 "$and") :
    andEntryIsList d1 = andEntryIsList d2 := by
  unfold andEntryIsList
  rw [h]

theorem andFields_congr {d1 d2 : Doc} (h : lookupD d1 "$and" = lookupD d2 "$and") :
    andFields d1 = andFields d2 := by
  unfold andFields
  rw [andItems_congr h]

theorem fieldsOfItems_map_pairs (d : Doc) :
    fieldsOfItems (d.map (fun p => vDict [(p.1, p.2)])) = topKeys d := by
  induction d with
  | nil => rfl
  | cons p rest ih =>
    rw [List.map_cons, fieldsOfItems_cons, topKeys_cons, ih]
    rfl

theorem mergeStep_insert {dst : Doc} {k : String} (v : PyVal)
    (h : lookupD dst k = none) :
    mergeStep dst k v = dst ++ [(k, v)] := by
  unfold mergeStep
  rw [h]

theorem mergeStep_update {dst : Doc} {k : String} {v ex : PyVal}
    (h : lookupD dst k = some ex) (hd : (isDictV ex && isDictV v) = true) :
    mergeStep dst k v = setK dst k (vDict (updateD (asDict ex) (asDict v))) := by
  unfold mergeStep
  rw [h]
  try dsimp only
  rw [if_pos hd]

theorem mergeStep_elevate_extend {dst : Doc} {k : String} {v ex : PyVal}
    {zs : List PyVal}
    (h : lookupD dst k = some ex) (hd : (isDictV ex && isDictV v) = false)
    (ha : lookupD (popK dst k) "$and" = some (vList zs)) :
    mergeStep dst k v =
      setK (popK dst k) "$and" (vList (zs ++ [vDict [(k, ex)], vDict [(k, v)]])) := by
  unfold mergeStep
  rw [h]
  try dsimp only
  rw [if_neg (by rw [hd]; exact Bool.false_ne_true)]
  try dsimp only
  rw [ha]

theorem mergeStep_elevate_full {dst : Doc} {k : String} {v ex : PyVal}
    (h : lookupD dst k = some ex) (hd : (isDictV ex && isDictV v) = false)
    (ha : lookupD (popK dst k) "$and" = none) :
    mergeStep dst k v =
      [("$and", vList ((popK dst k).map (fun p => vDict [(p.1, p.2)]) ++
        [vDict [(k, ex)], vDict [(k, v)]]))] := by
  unfold mergeStep
  rw [h]
  try dsimp only
  rw [if_neg (by rw [hd]; exact Bool.false_ne_true)]
  try dsimp only
  rw [ha]

theorem merge_and_single (dst : Doc) (k : String) (v : PyVal) :
    merge_and dst [(k, v)] = mergeStep dst k v := rfl

theorem fieldsOfItems_pair (k : String) (a b : PyVal) :
    fieldsOfItems [vDict [(k, a)], vDict [(k, b)]] = [k, k] := rfl

theorem andFields_single_and (L : List PyVal) :
    andFields [("$and", vList L)] = fieldsOfItems L := rfl

theorem andEntryIsList_single_and (L : List PyVal) :
    andEntryIsList [("$and", vList L)] = true := rfl

theorem topKeys_single (k : String) (v : PyVal) : topKeys [(k, v)] = [k] := rfl

theorem findAndPred_append (f : String) (xs ys : List PyVal) :
    findAndPred f (xs ++ ys) =
      (match findAndPred f xs with | some w => some w | none => findAndPred f ys) := by
  induction xs with
  | nil => rfl
  | cons it rest ih =>
    cases it with
    | vDict es =>
      rw [List.cons_append, findAndPred, findAndPred]
      cases hle : lookupD es f with
      | some w => rfl
      | none => exact ih
    | vInt n => rw [List.cons_append]; exact ih
    | vFloat q => rw [List.cons_append]; exact ih
    | vStr s => rw [List.cons_append]; exact ih
    | vDT d => rw [List.cons_append]; exact ih
    | vList xs2 => rw [List.cons_append]; exact ih

theorem findAndPred_pair_ne {k f : String} (h : k ≠ f) (a b : PyVal) :
    findAndPred f [vDict [(k, a)], vDict [(k, b)]] = none := by
  have hl : lookupD [(k, a)] f = none := by
    rw [lookupD, if_neg (by simpa using h)]
    rfl
  have hl2 : lookupD [(k, b)] f = none := by
    rw [lookupD, if_neg (by simpa using h)]
    rfl
  rw [findAndPred, hl, findAndPred, hl2]
  rfl

theorem findAndPred_map_pairs (f : String) (d : Doc) :
    findAndPred f (d.map (fun p => vDict [(p.1, p.2)])) = lookupD d f := by
  induction d with
  | nil => rfl
  | cons p rest ih =>
    rw [List.map_cons, findAndPred, lookupD]
    by_cases hp : p.1 = f
    · rw [if_pos (show (((p.1, p.2).1 == f) = true) by simpa using hp)]
      show some p.2 = if (p.1 == f) = true then some p.2 else lookupD rest f
      rw [if_pos (by simpa using hp)]
    · rw [if_neg (show ¬(((p.1, p.2).1 == f) = true) by simpa using hp)]
      show findAndPred f (List.map (fun p => vDict [(p.1, p.2)]) rest) =
        if (p.1 == f) = true then some p.2 else lookupD rest f
      rw [if_neg (by simpa using hp)]
      exact ih

theorem andEntryIsList_mergeStep {dst : Doc} {k : String} (v : PyVal)
    (hand : k ≠ "$and") (hwf : andEntryIsList dst = true) :
    andEntryIsList (mergeStep dst k v) = true := by
  cases hlk : lookupD dst k with
  | none =>
    rw [mergeStep_insert v hlk,
      andEntryIsList_congr (lookupD_append_single_ne (Ne.symm hand))]
    exact hwf
  | some ex =>
    cases hd : (isDictV ex && isDictV v) with
    | true =>
      rw [mergeStep_update hlk hd,
        andEntryIsList_congr (lookupD_setK_ne (Ne.symm hand))]
      exact hwf
    | false =>
      have hpopand : lookupD (popK dst k) "$and" = lookupD dst "$and" :=
        lookupD_popK_ne (Ne.symm hand)
      cases hda : lookupD dst "$and" with
      | none =>
        rw [mergeStep_elevate_full hlk hd (by rw [hpopand, hda])]
        exact andEntryIsList_single_and _
      | some w =>
        obtain ⟨zs, rfl⟩ : ∃ zs, w = vList zs := by
          unfold andEntryIsList at hwf
          rw [hda] at hwf
          cases w with
          | vList zs => exact ⟨zs, rfl⟩
          | vInt n => simp at hwf
          | vFloat q => simp at hwf
          | vStr s => simp at hwf
          | vDT d => simp at hwf
          | vDict es => simp at hwf
        rw [mergeStep_elevate_extend hlk hd (by rw [hpopand, hda])]
        unfold andEntryIsList
        rw [lookupD_setK_self]

theorem lookupPred_mergeStep_ne {dst : Doc} {k : String} {v : PyVal} {f : String}
    (hkf : k ≠ f) (hfand : f ≠ "$and") (hand : k ≠ "$and")
    (hwf : andEntryIsList dst = true) :
    lookupPred (mergeStep dst k v) f = lookupPred dst f := by
  cases hlk : lookupD dst k with
  | none =>
    rw [mergeStep_insert v hlk]
    unfold lookupPred
    rw [lookupD_append_single_ne (Ne.symm hkf),
      andItems_congr (lookupD_append_single_ne (Ne.symm hand))]
  | some ex =>
    cases hd : (isDictV ex && isDictV v) with
    | true =>
      rw [mergeStep_update hlk hd]
      unfold lookupPred
      rw [lookupD_setK_ne (Ne.symm hkf), andItems_congr (lookupD_setK_ne (Ne.symm hand))]
    | false =>
      have hpop : lookupD (popK dst k) f = lookupD dst f := lookupD_popK_ne (Ne.symm hkf)
      have hpopand : lookupD (popK dst k) "$and" = lookupD dst "$and" :=
        lookupD_popK_ne (Ne.symm hand)
      cases hda : lookupD dst "$and" with
      | none =>
        rw [mergeStep_elevate_full hlk hd (by rw [hpopand, hda])]
        unfold lookupPred
        have r1 : lookupD [("$and", vList ((popK dst k).map (fun p => vDict [(p.1, p.2)]) ++
            [vDict [(k, ex)], vDict [(k, v)]]))] f = none := by
          rw [lookupD, if_neg (by simpa using fun hh => hfand hh.symm)]
          rfl
        have r2 : andItems [("$and", vList ((popK dst k).map (fun p => vDict [(p.1, p.2)]) ++
            [vDict [(k, ex)], vDict [(k, v)]]))] =
            (popK dst k).map (fun p => vDict [(p.1, p.2)]) ++
              [vDict [(k, ex)], vDict [(k, v)]] := rfl
        rw [r1, r2, findAndPred_append, findAndPred_pair_ne hkf, findAndPred_map_pairs, hpop]
        have r3 : andItems dst = [] := by unfold andItems; rw [hda]
        rw [r3]
        cases lookupD dst f with
        | some w => rfl
        | none => rfl
      | some w =>
        obtain ⟨zs, rfl⟩ : ∃ zs, w = vList zs := by
          unfold andEntryIsList at hwf
          rw [hda] at hwf
          cases w with
          | vList zs => exact ⟨zs, rfl⟩
          | vInt n => simp at hwf
          | vFloat q => simp at hwf
          | vStr s => simp at hwf
          | vDT d => simp at hwf
          | vDict es => simp at hwf
        rw [mergeStep_elevate_extend hlk hd (by rw [hpopand, hda])]
        unfold lookupPred
        have r1 : lookupD (setK (popK dst k) "$and"
            (vList (zs ++ [vDict [(k, ex)], vDict [(k, v)]]))) f = lookupD dst f := by
          rw [lookupD_setK_ne hfand, hpop]
        have r2 : andItems (setK (popK dst k) "$and"
            (vList (zs ++ [vDict [(k, ex)], vDict [(k, v)]]))) =
            zs ++ [vDict [(k, ex)], vDict [(k, v)]] := by
          unfold andItems
          rw [lookupD_setK_self]
        rw [r1, r2, findAndPred_append, findAndPred_pair_ne hkf]
        have r3 : andItems dst = zs := by unfold andItems; rw [hda]
        rw [r3]
        cases lookupD dst f with
        | some w => rfl
        | none => cases findAndPred f zs with
          | some w => rfl
          | none => rfl

/-! ## Scan-failure lemmas (used for the universally quantified date-range claim) -/

theorem scanA_none {α : Type} (try_ : Option Char → List Char → Option α) :
    ∀ (l : List Char) (prev : Option Char),
      (∀ prev' s, s <:+ l → try_ prev' s = none) → scanA try_ prev l = none := by
  intro l
  induction l with
  | nil => intro prev h; exact h prev [] List.nil_suffix
  | cons c cs ih =>
    intro prev h
    rw [scanA, h prev (c :: cs) List.suffix_rfl]
    exact ih (some c) (fun prev' s hs => h prev' s (hs.trans (List.suffix_cons c cs)))

theorem suffix_split {α : Type} {s xs ys : List α} (h : s <:+ xs ++ ys) :
    (∃ s1, s1 <:+ xs ∧ s1 ≠ [] ∧ s = s1 ++ ys) ∨ s <:+ ys := by
  induction xs with
  | nil => right; simpa using h
  | cons x xs ih =>
    rw [List.cons_append] at h
    rcases List.suffix_cons_iff.mp h with h1 | h1
    · left
      exact ⟨x :: xs, List.suffix_rfl, by simp, by rw [h1, List.cons_append]⟩
    · rcases ih h1 with ⟨s1, hs1, hne, heq⟩ | h2
      · left
        exact ⟨s1, hs1.trans (List.suffix_cons x xs), hne, heq⟩
      · right
        exact h2

theorem matchesCI_mem {w : List Char} :
    ∀ {l r : List Char}, matchesCI w l = some r →
      ∀ c ∈ w, ∃ c2 ∈ l, lc c2 = lc c := by
  induction w with
  | nil => intro l r _ c hc; exact absurd hc (List.not_mem_nil c)
  | cons w0 ws ih =>
    intro l r hm c hc
    cases l with
    | nil => exact Option.noConfusion hm
    | cons c0 cs =>
      rw [matchesCI] at hm
      by_cases he : lc c0 = lc w0
      · rw [if_pos (by simpa using he)] at hm
        rcases List.mem_cons.mp hc with rfl | hc2
        · exact ⟨c0, List.mem_cons_self c0 cs, he⟩
        · obtain ⟨c2, hc2m, hc2e⟩ := ih hm c hc2
          exact ⟨c2, List.mem_cons_of_mem c0 hc2m, hc2e⟩
      · rw [if_neg (by simpa using he)] at hm
        exact Option.noConfusion hm

theorem failsWithin_correct :
    ∀ {w pre : List Char}, failsWithin w pre = true →
      ∀ X, matchesCI w (pre ++ X) = none := by
  intro w
  induction w with
  | nil => intro pre h X; cases pre with
    | nil => exact absurd h (by rw [failsWithin]; simp)
    | cons c cs => exact absurd h (by rw [failsWithin]; simp)
  | cons w0 ws ih =>
    intro pre h X
    cases pre with
    | nil => exact absurd h (by rw [failsWithin]; simp)
    | cons c cs =>
      rw [failsWithin] at h
      rw [List.cons_append, matchesCI]
      by_cases he : lc c = lc w0
      · rw [if_pos (by simpa using he)] at h
        rw [if_pos (by simpa using he)]
        exact ih h X
      · rw [if_neg (by simpa using he)]

theorem allSuffixFailW_correct {w : List Char} :
    ∀ {l : List Char}, allSuffixFailW w l = true →
      ∀ s, s <:+ l → s ≠ [] → ∀ X, matchesCI w (s ++ X) = none := by
  intro l
  induction l with
  | nil =>
    intro _ s hs hne
    rw [List.suffix_nil.mp hs] at hne
    exact absurd rfl hne
  | cons c r ih =>
    intro h s hs hne X
    rw [allSuffixFailW, Bool.and_eq_true] at h
    rcases List.suffix_cons_iff.mp hs with rfl | h2
    · exact failsWithin_correct h.1 X
    · exact ih h.2 s h2 hne X

theorem suffixesOK_correct {w : List Char} :
    ∀ {l : List Char}, suffixesOK w l = true →
      ∀ s, s <:+ l → s ≠ [] → matchesCI w s = none := by
  intro l
  induction l with
  | nil =>
    intro _ s hs hne
    rw [List.suffix_nil.mp hs] at hne
    exact absurd rfl hne
  | cons c r ih =>
    intro h s hs hne
    rw [suffixesOK, Bool.and_eq_true] at h
    rcases List.suffix_cons_iff.mp hs with rfl | h2
    · exact Option.isNone_iff_eq_none.mp h.1
    · exact ih h.2 s h2 hne

theorem tryWord_none_of_matches {w : List Char} {c : Char} {r : List Char}
    (h : matchesCI w (c :: r) = none) (prev : Option Char) :
    tryWord w prev (c :: r) = none := by
  unfold tryWord
  rw [h]
  split <;> try rfl
  split <;> rfl

/-- The word search fails on `pre ++ mid ++ suf` when every non-empty suffix of `pre`
fails within itself (continued arbitrarily), every character of `mid` fails the first
keyword character, and every non-empty suffix of `suf` fails. -/
theorem scan_word_none (w : List Char) (pre mid suf : List Char) (prev : Option Char)
    (hpre : allSuffixFailW w pre = true)
    (hmid : ∀ c ∈ mid, failsWithin w [c] = true)
    (hsuf : suffixesOK w suf = true) :
    scanA (tryWord w) prev (pre ++ (mid ++ suf)) = none := by
  apply scanA_none
  intro prev' s hs
  cases hsp : s with
  | nil => rfl
  | cons c r =>
    subst hsp
    rcases suffix_split hs with ⟨s1, hs1, hne, heq⟩ | h2
    · exact tryWord_none_of_matches
        (by rw [heq]; exact allSuffixFailW_correct hpre s1 hs1 hne (mid ++ suf)) prev'
    · rcases suffix_split h2 with ⟨s2, hs2, hne2, heq2⟩ | h3
      · obtain ⟨c2, r2, rfl⟩ : ∃ c2 r2, s2 = c2 :: r2 := by
          cases s2 with
          | nil => exact absurd rfl hne2
          | cons a b => exact ⟨a, b, rfl⟩
        have hc2 : c2 ∈ mid := hs2.subset (List.mem_cons_self c2 r2)
        exact tryWord_none_of_matches
          (by rw [heq2]
              rw [List.cons_append]
              exact failsWithin_correct (hmid c2 hc2) (r2 ++ suf)) prev'
      · exact tryWord_none_of_matches (suffixesOK_correct hsuf _ h3 (by simp)) prev'

theorem tryComp_none {l : List Char} (h : ∀ c ∈ l, c ≠ '>' ∧ c ≠ '<')
    (prev : Option Char) : tryComp prev l = none := by
  cases l with
  | nil => rfl
  | cons c cs =>
    unfold tryComp
    try dsimp only
    by_cases hg : (isFieldChar c && boundB prev c) = true
    · rw [if_pos hg]
      try dsimp only
      cases hr1 : ((c :: cs).dropWhile isFieldChar).dropWhile isSpaceChar with
      | nil => rfl
      | cons c1 r2 =>
        have hm : c1 ∈ c :: cs := by
          apply List.dropWhile_subset isFieldChar
          apply List.dropWhile_subset isSpaceChar
          rw [hr1]
          exact List.mem_cons_self c1 r2
        try dsimp only
        rw [if_neg (h c1 hm).1, if_neg (h c1 hm).2]
    · rw [if_neg hg]

theorem parse_comparison_none {l : List Char} (h : ∀ c ∈ l, c ≠ '>' ∧ c ≠ '<') :
    parse_comparison l = none := by
  apply scanA_none
  intro prev' s hs
  exact tryComp_none (fun c hc => h c (hs.subset hc)) prev'

theorem tryEq_none {l : List Char} (h : ∀ c ∈ l, lc c ≠ 'q' ∧ lc c ≠ 'i')
    (prev : Option Char) : tryEq prev l = none := by
  cases l with
  | nil => rfl
  | cons c cs =>
    unfold tryEq
    try dsimp only
    by_cases hg : (isFieldChar c && boundB prev c) = true
    · rw [if_pos hg]
      try dsimp only
      by_cases hw : ((((c :: cs).dropWhile isFieldChar).takeWhile isSpaceChar).isEmpty) = true
      · rw [if_pos hw]
      · rw [if_neg hw]
        have hsub : ∀ c2 ∈ ((c :: cs).dropWhile isFieldChar).dropWhile isSpaceChar,
            c2 ∈ c :: cs := by
          intro c2 hc2
          apply List.dropWhile_subset isFieldChar
          exact List.dropWhile_subset isSpaceChar hc2
        cases hq : matchesCI "equals".data (((c :: cs).dropWhile isFieldChar).dropWhile isSpaceChar) with
        | some r2 =>
          obtain ⟨c2, hc2m, hc2e⟩ := matchesCI_mem hq 'q' (by decide)
          exact absurd (hc2e.trans (by decide)) (h c2 (hsub c2 hc2m)).1
        | none =>
          cases hi : matchesCI "is".data (((c :: cs).dropWhile isFieldChar).dropWhile isSpaceChar) with
          | some r2 =>
            obtain ⟨c2, hc2m, hc2e⟩ := matchesCI_mem hi 'i' (by decide)
            exact absurd (hc2e.trans (by decide)) (h c2 (hsub c2 hc2m)).2
          | none => rfl
    · rw [if_neg hg]

theorem parse_equality_none {l : List Char} (h : ∀ c ∈ l, lc c ≠ 'q' ∧ lc c ≠ 'i') :
    parse_equality l = none := by
  apply scanA_none
  intro prev' s hs
  exact tryEq_none (fun c hc => h c (hs.subset hc)) prev'

theorem tryColon_none {l : List Char} (h : ∀ c ∈ l, c ≠ ':')
    (prev : Option Char) : tryColon prev l = none := by
  cases l with
  | nil => rfl
  | cons c cs =>
    unfold tryColon
    try dsimp only
    by_cases hg : (isFieldChar c && boundB prev c) = true
    · rw [if_pos hg]
      try dsimp only
      cases hr1 : ((c :: cs).dropWhile isFieldChar).dropWhile isSpaceChar with
      | nil => rfl
      | cons c1 r2 =>
        have hm : c1 ∈ c :: cs := by
          apply List.dropWhile_subset isFieldChar
          apply List.dropWhile_subset isSpaceChar
          rw [hr1]
          exact List.mem_cons_self c1 r2
        try dsimp only
        rw [if_neg (h c1 hm)]
    · rw [if_neg hg]

theorem tryIn_none {l : List Char} (h : ∀ c ∈ l, lc c ≠ 'i')
    (prev : Option Char) : tryIn prev l = none := by
  cases l with
  | nil => rfl
  | cons c cs =>
    unfold tryIn
    try dsimp only
    by_cases hg : (isFieldChar c && boundB prev c) = true
    · rw [if_pos hg]
      try dsimp only
      by_cases hw : ((((c :: cs).dropWhile isFieldChar).takeWhile isSpaceChar).isEmpty) = true
      · rw [if_pos hw]
      · rw [if_neg hw]
        cases hq : matchesCI "in".data (((c :: cs).dropWhile isFieldChar).dropWhile isSpaceChar) with
        | some r2 =>
          obtain ⟨c2, hc2m, hc2e⟩ := matchesCI_mem hq 'i' (by decide)
          have hm : c2 ∈ c :: cs := by
            apply List.dropWhile_subset isFieldChar
            exact List.dropWhile_subset isSpaceChar hc2m
          exact absurd (hc2e.trans (by decide)) (h c2 hm)
        | none => rfl
    · rw [if_neg hg]

theorem parse_category_none {l : List Char} (h1 : ∀ c ∈ l, c ≠ ':')
    (h2 : ∀ c ∈ l, lc c ≠ 'i') : parse_category l = none := by
  unfold parse_category reSearch
  rw [scanA_none _ l none (fun prev' s hs => tryColon_none (fun c hc => h1 c (hs.subset hc)) prev')]
  exact scanA_none _ l none (fun prev' s hs => tryIn_none (fun c hc => h2 c (hs.subset hc)) prev')

theorem tryContains_none {l : List Char} (h : ∀ c ∈ l, lc c ≠ 'i')
    (prev : Option Char) : tryContains prev l = none := by
  cases l with
  | nil => rfl
  | cons c cs =>
    unfold tryContains
    try dsimp only
    by_cases hg : (isFieldChar c && boundB prev c) = true
    · rw [if_pos hg]
      try dsimp only
      by_cases hw : ((((c :: cs).dropWhile isFieldChar).takeWhile isSpaceChar).isEmpty) = true
      · rw [if_pos hw]
      · rw [if_neg hw]
        cases hq : matchesCI "contains".data (((c :: cs).dropWhile isFieldChar).dropWhile isSpaceChar) with
        | some r2 =>
          obtain ⟨c2, hc2m, hc2e⟩ := matchesCI_mem hq 'i' (by decide)
          have hm : c2 ∈ c :: cs := by
            apply List.dropWhile_subset isFieldChar
            exact List.dropWhile_subset isSpaceChar hc2m
          exact absurd (hc2e.trans (by decide)) (h c2 hm)
        | none => rfl
    · rw [if_neg hg]

theorem parse_contains_none {l : List Char} (h : ∀ c ∈ l, lc c ≠ 'i') :
    parse_contains l = none := by
  apply scanA_none
  intro prev' s hs
  exact tryContains_none (fun c hc => h c (hs.subset hc)) prev'

theorem takeWhile_append_all {p : Char → Bool} :
    ∀ {xs : List Char}, (∀ c ∈ xs, p c = true) → ∀ {y : Char}, p y = false →
      ∀ (r : List Char), (xs ++ y :: r).takeWhile p = xs ∧ (xs ++ y :: r).dropWhile p = y :: r := by
  intro xs
  induction xs with
  | nil =>
    intro _ y hy r
    constructor
    · rw [List.nil_append, List.takeWhile_cons, if_neg (by simp [hy])]
    · rw [List.nil_append, List.dropWhile_cons, if_neg (by simp [hy])]
  | cons x xs ih =>
    intro hall y hy r
    have hx : p x = true := hall x (List.mem_cons_self x xs)
    obtain ⟨iht, ihd⟩ := ih (fun c hc => hall c (List.mem_cons_of_mem x hc)) hy r
    constructor
    · rw [List.cons_append, List.takeWhile_cons, if_pos (by simp [hx]), iht]
    · rw [List.cons_append, List.dropWhile_cons, if_pos (by simp [hx]), ihd]

theorem dropWhile_eq_self_of_none {p : Char → Bool} {l : List Char}
    (h : ∀ c ∈ l, p c = false) : l.dropWhile p = l := by
  cases l with
  | nil => rfl
  | cons c cs =>
    rw [List.dropWhile_cons, if_neg (by simp [h c (List.mem_cons_self c cs)])]

theorem takeWhile_eq_nil_of_none {p : Char → Bool} {l : List Char} (hne : l ≠ [])
    (h : ∀ c ∈ l, p c = false) : l.takeWhile p = [] := by
  cases l with
  | nil => exact absurd rfl hne
  | cons c cs =>
    rw [List.takeWhile_cons, if_neg (by simp [h c (List.mem_cons_self c cs)])]

theorem map_lc_self {l : List Char} (h : ∀ c ∈ l, lc c = c) : l.map lc = l := by
  induction l with
  | nil => rfl
  | cons c cs ih =>
    rw [List.map_cons, h c (List.mem_cons_self c cs),
      ih (fun c2 hc2 => h c2 (List.mem_cons_of_mem c hc2))]

theorem digit_facts {c : Char} (h : c ∈ decimalDigits) :
    c.isDigit = true ∧ isSpaceChar c = false ∧ lc c = c ∧
    failsWithin "today".data [c] = true ∧ failsWithin "yesterday".data [c] = true ∧
    c ≠ '>' ∧ c ≠ '<' ∧ lc c ≠ 'q' ∧ lc c ≠ 'i' ∧ c ≠ ':' := by
  fin_cases h <;> exact (by decide)

/-! ## Claim theorems -/

/-- C1 (counterexample): the claim fails as stated.  For the spec's own example
phrase `"status equals active status equals closed"`, the equality recognizer uses
`re.search` and extracts only the first match, so the parsed filter is exactly
`{status: "active"}`: the second predicate (`status = "closed"`) is not preserved
anywhere in the result — it is lost before the merge ever sees it. -/
theorem nlq_c1_counterexample :
    (parse_nlq_to_query (some "status equals active status equals closed") ⟨0, 0⟩).filter =
      [("status", vStr "active")] ∧
    filterMentions "closed"
      (parse_nlq_to_query (some "status equals active status equals closed") ⟨0, 0⟩).filter =
      false := by
  exact ⟨rfl, rfl⟩

/-- C1 (amended): only the first equality match in a phrase is extracted, so two
equality clauses on one field keep only the first.  When two different recognizers
extract conflicting literal predicates on the same field (equality plus the colon
category form), the merge preserves both via the `$and` conjunction list and discards
neither extracted predicate. -/
theorem nlq_c1_amended : ∀ t : DT,
    (parse_nlq_to_query (some "status equals active status: closed") t).filter =
      [("$and", vList [vDict [("status", vStr "active")], vDict [("status", vStr "closed")]])] ∧
    (parse_nlq_to_query (some "status equals active status equals closed") t).filter =
      [("status", vStr "active")] :=
  fun _ => ⟨rfl, rfl⟩

/-- C2 (code evidence): the claim is right about the intended design and the code is
wrong: `parse_nlq_to_query(nlq)` takes no reference instant — it reads the wall clock
via `_now_utc()` internally — so the public operation's output for the same phrase
`"today"` differs between two calls made on different days.  (In the embedding the
internally-read clock value is the explicit second argument.) -/
theorem nlq_c2_theorem :
    parse_nlq_to_query (some "today") ⟨0, 3600⟩ ≠ parse_nlq_to_query (some "today") ⟨1, 3600⟩ := by
  decide

/-- C6: `parse("today", T)` filters `created_at` to the half-open interval
`[midnight(T), midnight(T)+1d)` and `parse("yesterday", T)` to
`[midnight(T)-1d, midnight(T))`, midnight being the UTC civil-day floor of the
reference instant. -/
theorem nlq_c6_theorem : ∀ t : DT,
    (parse_nlq_to_query (some "today") t).filter =
      [("created_at", vDict [("$gte", vDT (floorDay t)), ("$lt", vDT (addDays (floorDay t) 1))])] ∧
    (parse_nlq_to_query (some "yesterday") t).filter =
      [("created_at", vDict [("$gte", vDT (addDays (floorDay t) (-1))), ("$lt", vDT (floorDay t))])] :=
  fun _ => ⟨rfl, rfl⟩

/-- C7 (counterexample): case idempotence fails.  Field names and literal values are
captured verbatim from the phrase, so upper-casing the input changes the descriptor:
`parse("a is B")` yields `{a: "B"}` while `parse("A IS B")` yields `{A: "B"}`. -/
theorem nlq_c7_counterexample :
    parse_nlq_to_query (some (upperStr "a is B")) ⟨0, 0⟩ ≠
      parse_nlq_to_query (some "a is B") ⟨0, 0⟩ := by
  decide

/-- C7 (amended): only the recognizer keywords are case-insensitive: phrases whose
non-keyword tokens are unchanged by the case mapping (keyword-only phrases, or digit
fields/values) parse identically in any case, but field names and values are captured
verbatim, so case changes to them change the descriptor. -/
theorem nlq_c7_amended : ∀ t : DT,
    parse_nlq_to_query (some "TODAY") t = parse_nlq_to_query (some "today") t ∧
    parse_nlq_to_query (some "YESTERDAY") t = parse_nlq_to_query (some "yesterday") t ∧
    parse_nlq_to_query (some "LAST 3 DAYS") t = parse_nlq_to_query (some "last 3 days") t ∧
    parse_nlq_to_query (some "7 EQUALS 5") t = parse_nlq_to_query (some "7 equals 5") t :=
  fun _ => ⟨rfl, rfl, rfl, rfl⟩

/-- C9: a missing (`None`) or falsy (`""`) input is coalesced to the empty phrase by
`(nlq or "")` and the parse returns exactly `{"filter": {}}` — an empty filter and no
optional keys — without raising. -/
theorem nlq_c9_theorem : ∀ t : DT,
    parse_nlq_to_query none t = ⟨[], none, none, none, none⟩ ∧
    parse_nlq_to_query (some "") t = ⟨[], none, none, none, none⟩ :=
  fun _ => ⟨rfl, rfl⟩

/-- C4: the numeric coercion policy of `_parse_number`: a token containing `.` is
parsed as a float and otherwise as an int, with the original token kept as a literal
string when that parse fails (the function never raises); through the comparison
recognizer, `"age > 10"` yields the int `10` under `$gt`, `"age > 10.5"` the float
`10.5`, and `"age > ten"` the string `"ten"`. -/
theorem nlq_c4_theorem :
    (∀ val : String,
      (val.data.contains '.' = true →
        (∃ q, parse_number val = vFloat q) ∨ parse_number val = vStr val) ∧
      (val.data.contains '.' = false →
        (∃ n, parse_number val = vInt n) ∨ parse_number val = vStr val)) ∧
    (∀ t : DT, (parse_nlq_to_query (some "age > 10") t).filter =
      [("age", vDict [("$gt", vInt 10)])]) ∧
    (∀ t : DT, (parse_nlq_to_query (some "age > 10.5") t).filter =
      [("age", vDict [("$gt", vFloat (mkRat 21 2))])]) ∧
    (∀ t : DT, (parse_nlq_to_query (some "age > ten") t).filter =
      [("age", vDict [("$gt", vStr "ten")])]) := by
  refine ⟨fun val => ⟨?_, ?_⟩, fun _ => rfl, fun _ => rfl, fun _ => rfl⟩
  · intro h
    unfold parse_number
    rw [h]
    cases hf : pyFloatOf val
    · simp
    · simp
  · intro h
    unfold parse_number
    rw [h]
    cases hi : pyIntOf val
    · simp
    · simp

/-- C4 (witness): the float branch instantiated at the token `"10.5"`. -/
theorem nlq_c4_witness :
    (∃ q, parse_number "10.5" = vFloat q) ∨ parse_number "10.5" = vStr "10.5" :=
  (nlq_c4_theorem.1 "10.5").1 (by decide)

/-- C8 (counterexample): "parse never fails" is false: at a present-day clock
(ordinal 739252, a 2025 date), `parse("last 800000 days", T)` computes
`T - timedelta(days=800000)`, which falls before year 1, so the subtraction raises
`OverflowError` (modelled as `.error ()`) and the exception escapes
`parse_nlq_to_query` uncaught. -/
theorem nlq_c8_counterexample :
    parse_nlq_to_query_exc (some "last 800000 days") ⟨739252, 0⟩ = .error () := by
  decide

/-- C8 (amended): the parse is best-effort on the recognizer side: a phrase with no
date-range fragment (no `today`/`yesterday` word and no `last N unit` match) never
raises, however unrecognized its text, and yields exactly the pure descriptor;
optional descriptor fields are attached only when the corresponding recognizer
produced a value; the empty phrase and a fully unrecognized phrase yield, without
raising, the descriptor that is exactly an empty filter with no optional keys.
(The no-raise guarantee does not extend to `last N unit` phrases whose date
arithmetic overflows; see the counterexample.) -/
theorem nlq_c8_amended :
    (∀ (s : String) (t : DT),
      hasWordCI "today" (stripL s.data) = false →
      hasWordCI "yesterday" (stripL s.data) = false →
      search_last (stripL s.data) = none →
      parse_nlq_to_query_exc (some s) t = .ok (parse_nlq_to_query (some s) t)) ∧
    (∀ (s : String) (t : DT),
      (parse_sort (stripL s.data) = none → (parse_nlq_to_query (some s) t).sort = none) ∧
      ((parse_limit_offset (stripL s.data)).1 = none →
        (parse_nlq_to_query (some s) t).limit = none) ∧
      ((parse_limit_offset (stripL s.data)).2 = none →
        (parse_nlq_to_query (some s) t).offset = none) ∧
      (parse_fields (stripL s.data) = none →
        (parse_nlq_to_query (some s) t).projection = none)) ∧
    (∀ t : DT, parse_nlq_to_query_exc (some "") t = .ok ⟨[], none, none, none, none⟩) ∧
    (∀ t : DT, parse_nlq_to_query_exc (some "qwerty zzz") t =
      .ok ⟨[], none, none, none, none⟩) := by
  refine ⟨fun s t h1 h2 h3 => ?_, fun s t => ⟨?_, ?_, ?_, ?_⟩, fun _ => rfl, fun _ => rfl⟩
  · have hcf : collect_filters_exc (stripL s.data) t =
        .ok (collect_filters (stripL s.data) t) := by
      unfold collect_filters_exc collect_filters
      rw [h1, h2, h3]
      simp only [Bool.false_eq_true, if_false]
      try dsimp only
      try rfl
    rw [show parse_nlq_to_query_exc (some s) t =
        (match collect_filters_exc (stripL s.data) t with
         | .error e => .error e
         | .ok filterDoc =>
           .ok ⟨filterDoc, ensure_projection (parse_fields (stripL s.data)),
                parse_sort (stripL s.data), (parse_limit_offset (stripL s.data)).1,
                (parse_limit_offset (stripL s.data)).2⟩) from rfl]
    rw [hcf]
    rfl
  · intro h; simp [parse_nlq_to_query, h]
  · intro h; simp [parse_nlq_to_query, h]
  · intro h; simp [parse_nlq_to_query, h]
  · intro h; simp [parse_nlq_to_query, ensure_projection, h]

/-- C8 (witness): a phrase whose only recognized fragment is a comparison is parsed
without raising, and the attachment conditions instantiated at the empty phrase. -/
theorem nlq_c8_amended_witness :
    parse_nlq_to_query_exc (some "age > 10") ⟨739252, 0⟩ =
      .ok (parse_nlq_to_query (some "age > 10") ⟨739252, 0⟩) ∧
    (parse_nlq_to_query (some "") ⟨0, 0⟩).sort = none ∧
    (parse_nlq_to_query (some "") ⟨0, 0⟩).limit = none ∧
    (parse_nlq_to_query (some "") ⟨0, 0⟩).offset = none ∧
    (parse_nlq_to_query (some "") ⟨0, 0⟩).projection = none :=
  have h := nlq_c8_amended.2.1 "" ⟨0, 0⟩
  ⟨nlq_c8_amended.1 "age > 10" ⟨739252, 0⟩ (by decide) (by decide) (by decide),
    h.1 (by decide), h.2.1 (by decide), h.2.2.1 (by decide), h.2.2.2 (by decide)⟩

/-- C3 (counterexample): the FilterTree invariant is not preserved by every merge
step.  For `"age > 5 age equals ten age: x"` the comparison and equality fragments
collide and are elevated into `$and`; the later colon-category fragment for the same
field then finds the top-level key free again and is re-inserted, so `age` appears
both inside the conjunction list and as a top-level key. -/
theorem nlq_c3_counterexample :
    (parse_nlq_to_query (some "age > 5 age equals ten age: x") ⟨0, 0⟩).filter =
      [("$and", vList [vDict [("age", vDict [("$gt", vInt 5)])], vDict [("age", vStr "ten")]]),
       ("age", vStr "x")] ∧
    ¬ elevInvariant (parse_nlq_to_query (some "age > 5 age equals ten age: x") ⟨0, 0⟩).filter :=
  ⟨rfl, by decide⟩

/-- C3 (amended): a single merge step preserves the invariant (unique top-level keys,
list-shaped `$and`, no elevated field also top-level) provided the incoming
fragment's field does not already occur inside the conjunction list; a fragment whose
field was already elevated (or swept into the list by another field's elevation) is
re-inserted as a top-level key, so the invariant does not hold for arbitrary fragment
sequences. -/
theorem nlq_c3_amended (dst : Doc) (k : String) (v : PyVal)
    (hinv : elevInvariant dst) (hk : k ∉ andFields dst) (hand : k ≠ "$and") :
    elevInvariant (merge_and dst [(k, v)]) := by
  obtain ⟨hnd, hal, hf⟩ := hinv
  rw [merge_and_single]
  cases hlk : lookupD dst k with
  | none =>
    rw [mergeStep_insert v hlk]
    have hknot : k ∉ topKeys dst := lookupD_eq_none.mp hlk
    have hca : lookupD (dst ++ [(k, v)]) "$and" = lookupD dst "$and" :=
      lookupD_append_single_ne (Ne.symm hand)
    refine ⟨?_, ?_, ?_⟩
    · rw [topKeys_append_single]
      simp [List.nodup_append, hnd, hknot]
    · rw [andEntryIsList_congr hca]
      exact hal
    · intro f hfa
      rw [andFields_congr hca] at hfa
      rw [topKeys_append_single]
      simp only [List.mem_append, List.mem_singleton, not_or]
      exact ⟨hf f hfa, fun he => hk (he ▸ hfa)⟩
  | some ex =>
    cases hd : (isDictV ex && isDictV v) with
    | true =>
      rw [mergeStep_update hlk hd]
      have hmem : k ∈ topKeys dst := lookupD_mem hlk
      have hca : lookupD (setK dst k (vDict (updateD (asDict ex) (asDict v)))) "$and" =
          lookupD dst "$and" := lookupD_setK_ne (Ne.symm hand)
      refine ⟨?_, ?_, ?_⟩
      · rw [topKeys_setK_of_mem _ hmem]
        exact hnd
      · rw [andEntryIsList_congr hca]
        exact hal
      · intro f hfa
        rw [andFields_congr hca] at hfa
        rw [topKeys_setK_of_mem _ hmem]
        exact hf f hfa
    | false =>
      have hrests : lookupD (popK dst k) "$and" = lookupD dst "$and" :=
        lookupD_popK_ne (Ne.symm hand)
      cases hda : lookupD dst "$and" with
      | none =>
        have ha : lookupD (popK dst k) "$and" = none := by rw [hrests, hda]
        rw [mergeStep_elevate_full hlk hd ha]
        refine ⟨?_, ?_, ?_⟩
        · rw [topKeys_single]
          exact List.nodup_singleton _
        · exact andEntryIsList_single_and _
        · intro f hfa
          rw [andFields_single_and, fieldsOfItems_append, fieldsOfItems_map_pairs,
            fieldsOfItems_pair] at hfa
          rw [topKeys_single, List.mem_singleton]
          intro hfand
          subst hfand
          rcases List.mem_append.mp hfa with hm | hm
          · rw [topKeys_popK] at hm
            exact absurd (List.mem_filter.mp hm).1 (lookupD_eq_none.mp hda)
          · have : "$and" = k := by simpa using hm
            exact hand this.symm
      | some w =>
        have hzs : ∃ zs, w = vList zs := by
          unfold andEntryIsList at hal
          rw [hda] at hal
          cases w with
          | vList zs => exact ⟨zs, rfl⟩
          | vInt n => simp at hal
          | vFloat q => simp at hal
          | vStr s => simp at hal
          | vDT d => simp at hal
          | vDict es => simp at hal
        obtain ⟨zs, rfl⟩ := hzs
        have ha : lookupD (popK dst k) "$and" = some (vList zs) := by rw [hrests, hda]
        rw [mergeStep_elevate_extend hlk hd ha]
        have hmemand : "$and" ∈ topKeys (popK dst k) := lookupD_mem ha
        refine ⟨?_, ?_, ?_⟩
        · rw [topKeys_setK_of_mem _ hmemand, topKeys_popK]
          exact hnd.filter _
        · unfold andEntryIsList
          rw [lookupD_setK_self]
        · intro f hfa
          have hres : andFields (setK (popK dst k) "$and"
              (vList (zs ++ [vDict [(k, ex)], vDict [(k, v)]]))) =
              fieldsOfItems zs ++ [k, k] := by
            unfold andFields andItems
            rw [lookupD_setK_self, fieldsOfItems_append, fieldsOfItems_pair]
          rw [hres] at hfa
          rw [topKeys_setK_of_mem _ hmemand, topKeys_popK]
          intro hmem
          have hmem2 := List.mem_filter.mp hmem
          rcases List.mem_append.mp hfa with hm | hm
          · have hfad : f ∈ andFields dst := by
              unfold andFields
              rw [show andItems dst = zs from by unfold andItems; rw [hda]]
              exact hm
            exact hf f hfad hmem2.1
          · have hfk : f = k := by simpa using hm
            rw [hfk] at hmem2
            simp at hmem2

/-- C3 (amended, witness): the step theorem applied to a concrete accumulator and
fragment. -/
theorem nlq_c3_amended_witness :
    elevInvariant (merge_and [("x", vInt 1)] [("y", vInt 2)]) :=
  nlq_c3_amended [("x", vInt 1)] "y" (vInt 2) (by decide) (by decide) (by decide)

/-- C10: for a phrase containing both the words `today` and `yesterday` and no other
fragment on `created_at`, both ranges are recognized and merged by operator-map key
union in which the later-processed `yesterday` bounds overwrite the `today` bounds:
the filter's `created_at` predicate is exactly yesterday's interval
`[midnight(T)-1d, midnight(T))` — the `today` predicate is overwritten, not
conjoined. -/
theorem nlq_c10_theorem (p : List Char) (t : DT)
    (h1 : hasWordCI "today" p = true) (h2 : hasWordCI "yesterday" p = true)
    (h3 : search_last p = none)
    (h4 : fragOnOtherField (parse_comparison p))
    (h5 : fragOnOtherField (parse_equality p))
    (h6 : fragOnOtherField (parse_category p))
    (h7 : fragOnOtherField (parse_contains p)) :
    lookupPred (collect_filters p t) "created_at" =
      some (vDict [("$gte", vDT (addDays (floorDay t) (-1))), ("$lt", vDT (floorDay t))]) := by
  have step : ∀ (dst : Doc) (o : Option Doc), fragOnOtherField o →
      andEntryIsList dst = true →
      lookupPred (match o with | some d => merge_and dst d | none => dst) "created_at" =
        lookupPred dst "created_at" ∧
      andEntryIsList (match o with | some d => merge_and dst d | none => dst) = true := by
    intro dst o ho hwf
    cases o with
    | none => exact ⟨rfl, hwf⟩
    | some d =>
      obtain ⟨k, v, rfl, hk1, hk2⟩ := ho d rfl
      dsimp only
      rw [merge_and_single]
      exact ⟨lookupPred_mergeStep_ne hk1 (by decide) hk2 hwf,
        andEntryIsList_mergeStep v hk2 hwf⟩
  unfold collect_filters
  rw [h1, h2, h3]
  simp only [eq_self_iff_true, if_true]
  have hD : (match apply_date_range "yesterday".data t with
      | some cond => merge_and
          (match apply_date_range "today".data t with
          | some cond => merge_and [] cond
          | none => ([] : Doc))
          cond
      | none => (match apply_date_range "today".data t with
          | some cond => merge_and [] cond
          | none => ([] : Doc))) =
      [("created_at", vDict [("$gte", vDT (addDays (floorDay t) (-1))),
        ("$lt", vDT (floorDay t))])] := rfl
  rw [hD]
  obtain ⟨ea, wa⟩ := step [("created_at", vDict [("$gte", vDT (addDays (floorDay t) (-1))),
    ("$lt", vDT (floorDay t))])] (parse_comparison p) h4 (by rfl)
  obtain ⟨eb, wb⟩ := step _ (parse_equality p) h5 wa
  obtain ⟨ec, wc⟩ := step _ (parse_category p) h6 wb
  obtain ⟨ed, wd⟩ := step _ (parse_contains p) h7 wc
  rw [ed, ec, eb, ea]
  rfl

/-- C10 (witness): the theorem applied to the phrase `"today yesterday"`. -/
theorem nlq_c10_witness :
    lookupPred (collect_filters "today yesterday".data ⟨0, 0⟩) "created_at" =
      some (vDict [("$gte", vDT (addDays (floorDay ⟨0, 0⟩) (-1))),
                   ("$lt", vDT (floorDay ⟨0, 0⟩))]) :=
by
  have hc : parse_comparison "today yesterday".data = none := by decide
  have he : parse_equality "today yesterday".data = none := by decide
  have hcat : parse_category "today yesterday".data = none := by decide
  have hcon : parse_contains "today yesterday".data = none := by decide
  exact nlq_c10_theorem "today yesterday".data ⟨0, 0⟩ (by decide) (by decide) (by decide)
    (fun d h => by rw [hc] at h; exact Option.noConfusion h)
    (fun d h => by rw [he] at h; exact Option.noConfusion h)
    (fun d h => by rw [hcat] at h; exact Option.noConfusion h)
    (fun d h => by rw [hcon] at h; exact Option.noConfusion h)

/-- Helper for C5: on a phrase `last <digits> <unit>` only the `last` pattern fires,
it matches the whole phrase, and the filter is a lower-bound-only `created_at`
predicate computed from the digit count and the unit word; when the day count stays
within the `timedelta` bound and the shifted instant stays a representable datetime,
the fallible model returns the same descriptor instead of raising. -/
theorem c5_core (d0 : Char) (ds' : List Char) (uL unit : List Char) (t : DT)
    (hdig : ∀ c ∈ d0 :: ds', c ∈ decimalDigits)
    (hu_ne : uL ≠ [])
    (hu_chars : ∀ c ∈ uL, lc c = c ∧ isSpaceChar c = false ∧ c ≠ '>' ∧ c ≠ '<' ∧
      lc c ≠ 'q' ∧ lc c ≠ 'i' ∧ c ≠ ':')
    (h_tod : suffixesOK "today".data (' ' :: uL) = true)
    (h_yes : suffixesOK "yesterday".data (' ' :: uL) = true)
    (h_unit : tryUnit uL = some (unit, [])) :
    (parse_nlq_to_query (some ('l' :: 'a' :: 's' :: 't' :: ' ' ::(d0 :: (ds' ++ ' ' :: uL))).asString) t).filter =
      [("created_at", vDict [("$gte", vDT (addDays t
        (-(if containsSub "day".data unit then (digitsToNat (d0 :: ds') : Int)
           else if containsSub "week".data unit then 7 * (digitsToNat (d0 :: ds') : Int)
           else ((digitsToNat (d0 :: ds') * 30 : Nat) : Int)))))])] ∧
    ((if containsSub "day".data unit then (digitsToNat (d0 :: ds') : Int)
      else if containsSub "week".data unit then 7 * (digitsToNat (d0 :: ds') : Int)
      else ((digitsToNat (d0 :: ds') * 30 : Nat) : Int)).natAbs ≤ timedeltaMaxDays →
     minOrdinal ≤ t.days - (if containsSub "day".data unit then (digitsToNat (d0 :: ds') : Int)
      else if containsSub "week".data unit then 7 * (digitsToNat (d0 :: ds') : Int)
      else ((digitsToNat (d0 :: ds') * 30 : Nat) : Int)) →
     t.days - (if containsSub "day".data unit then (digitsToNat (d0 :: ds') : Int)
      else if containsSub "week".data unit then 7 * (digitsToNat (d0 :: ds') : Int)
      else ((digitsToNat (d0 :: ds') * 30 : Nat) : Int)) ≤ maxOrdinal →
     ∃ q, parse_nlq_to_query_exc
        (some ('l' :: 'a' :: 's' :: 't' :: ' ' ::(d0 :: (ds' ++ ' ' :: uL))).asString) t = .ok q ∧
      q.filter = [("created_at", vDict [("$gte", vDT (addDays t
        (-(if containsSub "day".data unit then (digitsToNat (d0 :: ds') : Int)
           else if containsSub "week".data unit then 7 * (digitsToNat (d0 :: ds') : Int)
           else ((digitsToNat (d0 :: ds') * 30 : Nat) : Int)))))])]) := by
  have hds_digit : ∀ c ∈ d0 :: ds', Char.isDigit c = true :=
    fun c hc => (digit_facts (hdig c hc)).1
  have h_spd0 : isSpaceChar d0 = false := (digit_facts (hdig d0 (List.mem_cons_self _ _))).2.1
  have hsplit : 'l' :: 'a' :: 's' :: 't' :: ' ' ::(d0 :: (ds' ++ ' ' :: uL)) =
      "last ".data ++ ((d0 :: ds') ++ (' ' :: uL)) := by simp
  have h_t : hasWordCI "today" ('l' :: 'a' :: 's' :: 't' :: ' ' ::(d0 :: (ds' ++ ' ' :: uL))) = false := by
    unfold hasWordCI reSearch
    rw [hsplit, scan_word_none "today".data "last ".data (d0 :: ds') (' ' :: uL) none
      (by decide) (fun c hc => (digit_facts (hdig c hc)).2.2.2.1) h_tod]
    rfl
  have h_y : hasWordCI "yesterday" ('l' :: 'a' :: 's' :: 't' :: ' ' ::(d0 :: (ds' ++ ' ' :: uL))) = false := by
    unfold hasWordCI reSearch
    rw [hsplit, scan_word_none "yesterday".data "last ".data (d0 :: ds') (' ' :: uL) none
      (by decide) (fun c hc => (digit_facts (hdig c hc)).2.2.2.2.1) h_yes]
    rfl
  have hchars : ∀ c ∈ 'l' :: 'a' :: 's' :: 't' :: ' ' ::(d0 :: (ds' ++ ' ' :: uL)),
      (c ≠ '>' ∧ c ≠ '<') ∧ (lc c ≠ 'q' ∧ lc c ≠ 'i') ∧ c ≠ ':' := by
    intro c hc
    rw [hsplit] at hc
    rcases List.mem_append.mp hc with hc1 | hc2
    · fin_cases hc1 <;> exact (by decide)
    · rcases List.mem_append.mp hc2 with hc3 | hc4
      · have hf := digit_facts (hdig c hc3)
        exact ⟨⟨hf.2.2.2.2.2.1, hf.2.2.2.2.2.2.1⟩,
          ⟨hf.2.2.2.2.2.2.2.1, hf.2.2.2.2.2.2.2.2.1⟩, hf.2.2.2.2.2.2.2.2.2⟩
      · rcases List.mem_cons.mp hc4 with rfl | hc5
        · exact (by decide)
        · have hf := hu_chars c hc5
          exact ⟨⟨hf.2.2.1, hf.2.2.2.1⟩, ⟨hf.2.2.2.2.1, hf.2.2.2.2.2.1⟩, hf.2.2.2.2.2.2⟩
  have h_comp := parse_comparison_none (fun c hc => (hchars c hc).1)
  have h_eq := parse_equality_none (fun c hc => (hchars c hc).2.1)
  have h_cat := parse_category_none (fun c hc => (hchars c hc).2.2)
    (fun c hc => (hchars c hc).2.1.2)
  have h_cont := parse_contains_none (l := 'l' :: 'a' :: 's' :: 't' :: ' ' ::(d0 :: (ds' ++ ' ' :: uL)))
    (fun c hc => (hchars c hc).2.1.2)
  -- the anchored `last` pattern consumes the whole phrase
  have h_twdig := takeWhile_append_all (p := Char.isDigit) hds_digit (y := ' ') (by decide) uL
  have hdig_take : (d0 :: (ds' ++ ' ' :: uL)).takeWhile Char.isDigit = d0 :: ds' := by
    rw [← List.cons_append]
    exact h_twdig.1
  have hdig_drop : (d0 :: (ds' ++ ' ' :: uL)).dropWhile Char.isDigit = ' ' :: uL := by
    rw [← List.cons_append]
    exact h_twdig.2
  have hws1 : (' ' ::(d0 :: (ds' ++ ' ' :: uL))).takeWhile isSpaceChar = [' '] := by
    rw [List.takeWhile_cons_of_pos (by decide), List.takeWhile_cons_of_neg (by simp [h_spd0])]
  have hdr1 : (' ' ::(d0 :: (ds' ++ ' ' :: uL))).dropWhile isSpaceChar =
      d0 :: (ds' ++ ' ' :: uL) := by
    rw [List.dropWhile_cons_of_pos (by decide), List.dropWhile_cons_of_neg (by simp [h_spd0])]
  have hsp_unit : (' ' :: uL).dropWhile isSpaceChar = uL := by
    rw [List.dropWhile_cons_of_pos (by decide)]
    exact dropWhile_eq_self_of_none (fun c hc => (hu_chars c hc).2.1)
  have h_tryLast : tryLast ('l' :: 'a' :: 's' :: 't' :: ' ' ::(d0 :: (ds' ++ ' ' :: uL))) =
      some (d0 :: ds', unit, []) := by
    unfold tryLast
    rw [show matchesCI "last".data ('l' :: 'a' :: 's' :: 't' :: ' ' ::(d0 :: (ds' ++ ' ' :: uL))) =
      some (' ' ::(d0 :: (ds' ++ ' ' :: uL))) from rfl]
    try dsimp only
    rw [hws1]
    rw [if_neg (by decide)]
    rw [hdr1, hdig_take, hdig_drop]
    rw [if_neg (by simp)]
    rw [hsp_unit, h_unit]
  have h_sl : search_last ('l' :: 'a' :: 's' :: 't' :: ' ' ::(d0 :: (ds' ++ ' ' :: uL))) =
      some ('l' :: 'a' :: 's' :: 't' :: ' ' ::(d0 :: (ds' ++ ' ' :: uL))) := by
    unfold search_last reSearch
    rw [scanA, h_tryLast]
    try dsimp only
    simp only [List.length_nil, Nat.sub_zero, List.take_length]
  have h_lc : ('l' :: 'a' :: 's' :: 't' :: ' ' ::(d0 :: (ds' ++ ' ' :: uL))).map lc =
      'l' :: 'a' :: 's' :: 't' :: ' ' ::(d0 :: (ds' ++ ' ' :: uL)) := by
    rw [hsplit, List.map_append, List.map_append]
    rw [show ("last ".data).map lc = "last ".data from rfl]
    rw [map_lc_self (fun c hc => (digit_facts (hdig c hc)).2.2.1)]
    rw [List.map_cons, show lc ' ' = ' ' from rfl,
      map_lc_self (fun c hc => (hu_chars c hc).1)]
  have h_strip : stripL ('l' :: 'a' :: 's' :: 't' :: ' ' ::(d0 :: (ds' ++ ' ' :: uL))) =
      'l' :: 'a' :: 's' :: 't' :: ' ' ::(d0 :: (ds' ++ ' ' :: uL)) := by
    unfold stripL
    rw [List.dropWhile_cons_of_neg (by decide)]
    obtain ⟨u0, ur, hrev⟩ : ∃ u0 ur, uL.reverse = u0 :: ur := by
      cases hh : uL.reverse with
      | nil => exact absurd (by simpa using congrArg List.reverse hh) hu_ne
      | cons a b => exact ⟨a, b, rfl⟩
    have hu0 : isSpaceChar u0 = false := by
      have : u0 ∈ uL := by
        rw [← List.mem_reverse, hrev]
        exact List.mem_cons_self u0 ur
      exact (hu_chars u0 this).2.1
    rw [hsplit, List.reverse_append, List.reverse_append, List.reverse_cons, hrev]
    rw [show ((u0 :: ur) ++ [' ']) ++ (d0 :: ds').reverse = u0 :: (ur ++ [' '] ++ (d0 :: ds').reverse) by simp]
    rw [List.cons_append, List.dropWhile_cons_of_neg (by simp [hu0])]
    have huL : uL = ur.reverse ++ [u0] := by
      rw [← List.reverse_reverse uL, hrev, List.reverse_cons]
    rw [huL]
    simp
  have h_adr : apply_date_range ('l' :: 'a' :: 's' :: 't' :: ' ' ::(d0 :: (ds' ++ ' ' :: uL))) t =
      some [("created_at", vDict [("$gte", vDT (addDays t
        (-(if containsSub "day".data unit then (digitsToNat (d0 :: ds') : Int)
           else if containsSub "week".data unit then 7 * (digitsToNat (d0 :: ds') : Int)
           else ((digitsToNat (d0 :: ds') * 30 : Nat) : Int)))))])] := by
    unfold apply_date_range
    try dsimp only
    rw [h_lc, h_strip]
    rw [if_neg (show ¬('l' :: 'a' :: 's' :: 't' :: ' ' ::(d0 :: (ds' ++ ' ' :: uL)) = "today".data) by
      rw [show ("today".data : List Char) = ['t','o','d','a','y'] from rfl]; simp)]
    rw [if_neg (show ¬('l' :: 'a' :: 's' :: 't' :: ' ' ::(d0 :: (ds' ++ ' ' :: uL)) = "yesterday".data) by
      rw [show ("yesterday".data : List Char) = ['y','e','s','t','e','r','d','a','y'] from rfl]; simp)]
    rw [h_tryLast]
  refine ⟨?_, ?_⟩
  · rw [show (parse_nlq_to_query
        (some ('l' :: 'a' :: 's' :: 't' :: ' ' ::(d0 :: (ds' ++ ' ' :: uL))).asString) t).filter =
        collect_filters (stripL ('l' :: 'a' :: 's' :: 't' :: ' ' ::(d0 :: (ds' ++ ' ' :: uL)))) t from rfl]
    rw [h_strip]
    unfold collect_filters
    rw [h_t, h_y]
    simp only [Bool.false_eq_true, if_false]
    rw [h_sl]
    try dsimp only
    rw [h_adr]
    try dsimp only
    rw [h_comp, h_eq, h_cat, h_cont]
    rfl
  · intro hmax hlo hhi
    have h_adr_exc : apply_date_range_exc ('l' :: 'a' :: 's' :: 't' :: ' ' ::(d0 :: (ds' ++ ' ' :: uL))) t =
        .ok (some [("created_at", vDict [("$gte", vDT (addDays t
          (-(if containsSub "day".data unit then (digitsToNat (d0 :: ds') : Int)
             else if containsSub "week".data unit then 7 * (digitsToNat (d0 :: ds') : Int)
             else ((digitsToNat (d0 :: ds') * 30 : Nat) : Int)))))])]) := by
      unfold apply_date_range_exc
      try dsimp only
      rw [h_lc, h_strip]
      rw [if_neg (show ¬('l' :: 'a' :: 's' :: 't' :: ' ' ::(d0 :: (ds' ++ ' ' :: uL)) = "today".data) by
        rw [show ("today".data : List Char) = ['t','o','d','a','y'] from rfl]; simp)]
      rw [if_neg (show ¬('l' :: 'a' :: 's' :: 't' :: ' ' ::(d0 :: (ds' ++ ' ' :: uL)) = "yesterday".data) by
        rw [show ("yesterday".data : List Char) = ['y','e','s','t','e','r','d','a','y'] from rfl]; simp)]
      rw [h_tryLast]
      try dsimp only
      rw [if_neg (not_lt.mpr hmax)]
      unfold pyShiftDays
      try dsimp only
      rw [show ("day".data : List Char) = ['d', 'a', 'y'] from rfl,
        show ("week".data : List Char) = ['w', 'e', 'e', 'k'] from rfl] at hlo hhi
      rw [if_pos (by constructor <;> omega)]
      rfl
    have h_cf_exc : collect_filters_exc ('l' :: 'a' :: 's' :: 't' :: ' ' ::(d0 :: (ds' ++ ' ' :: uL))) t =
        .ok [("created_at", vDict [("$gte", vDT (addDays t
          (-(if containsSub "day".data unit then (digitsToNat (d0 :: ds') : Int)
             else if containsSub "week".data unit then 7 * (digitsToNat (d0 :: ds') : Int)
             else ((digitsToNat (d0 :: ds') * 30 : Nat) : Int)))))])] := by
      unfold collect_filters_exc
      rw [h_t, h_y]
      simp only [Bool.false_eq_true, if_false]
      try dsimp only
      rw [h_sl]
      try dsimp only
      rw [h_adr_exc]
      try dsimp only
      rw [h_comp, h_eq, h_cat, h_cont]
      rfl
    have hp : parse_nlq_to_query_exc
        (some ('l' :: 'a' :: 's' :: 't' :: ' ' ::(d0 :: (ds' ++ ' ' :: uL))).asString) t =
        .ok ⟨[("created_at", vDict [("$gte", vDT (addDays t
            (-(if containsSub "day".data unit then (digitsToNat (d0 :: ds') : Int)
               else if containsSub "week".data unit then 7 * (digitsToNat (d0 :: ds') : Int)
               else ((digitsToNat (d0 :: ds') * 30 : Nat) : Int)))))])],
          ensure_projection (parse_fields (stripL ('l' :: 'a' :: 's' :: 't' :: ' ' ::(d0 :: (ds' ++ ' ' :: uL))))),
          parse_sort (stripL ('l' :: 'a' :: 's' :: 't' :: ' ' ::(d0 :: (ds' ++ ' ' :: uL)))),
          (parse_limit_offset (stripL ('l' :: 'a' :: 's' :: 't' :: ' ' ::(d0 :: (ds' ++ ' ' :: uL))))).1,
          (parse_limit_offset (stripL ('l' :: 'a' :: 's' :: 't' :: ' ' ::(d0 :: (ds' ++ ' ' :: uL))))).2⟩ := by
      rw [show parse_nlq_to_query_exc
          (some ('l' :: 'a' :: 's' :: 't' :: ' ' ::(d0 :: (ds' ++ ' ' :: uL))).asString) t =
          (match collect_filters_exc (stripL ('l' :: 'a' :: 's' :: 't' :: ' ' ::(d0 :: (ds' ++ ' ' :: uL)))) t with
           | .error e => .error e
           | .ok filterDoc =>
             .ok ⟨filterDoc,
               ensure_projection (parse_fields (stripL ('l' :: 'a' :: 's' :: 't' :: ' ' ::(d0 :: (ds' ++ ' ' :: uL))))),
               parse_sort (stripL ('l' :: 'a' :: 's' :: 't' :: ' ' ::(d0 :: (ds' ++ ' ' :: uL)))),
               (parse_limit_offset (stripL ('l' :: 'a' :: 's' :: 't' :: ' ' ::(d0 :: (ds' ++ ' ' :: uL))))).1,
               (parse_limit_offset (stripL ('l' :: 'a' :: 's' :: 't' :: ' ' ::(d0 :: (ds' ++ ' ' :: uL))))).2⟩) from rfl]
      rw [h_strip, h_cf_exc]
    exact ⟨_, hp, rfl⟩

/-- C5 (counterexample): the universal over every digit count `N` fails: for
`N = 1000000000` the constructed `timedelta` exceeds its 999,999,999-day magnitude
bound, so `parse("last 1000000000 days", T)` raises `OverflowError` (modelled as
`.error ()`) instead of producing a `created_at` filter. -/
theorem nlq_c5_counterexample :
    parse_nlq_to_query_exc (some "last 1000000000 days") ⟨739252, 0⟩ = .error () := by
  decide

/-- C5 (amended): for every non-empty digit string `N` and unit word among day(s),
week(s), month(s) such that the converted day count stays within the `timedelta`
bound and `T - N*unit` stays a representable datetime, `parse("last N <unit>", T)`
returns (without raising) the lower-bound-only predicate `created_at >= T - N*unit`
with no upper bound, where day = 1 day, week = 7 days and month = exactly 30 days. -/
theorem nlq_c5_amended (ds : List Char) (u : String) (t : DT)
    (hne : ds ≠ []) (hdig : ∀ c ∈ ds, c ∈ decimalDigits)
    (hu : u ∈ ["day", "days", "week", "weeks", "month", "months"])
    (hmax : unitDays u * (digitsToNat ds : Int) ≤ (timedeltaMaxDays : Int))
    (hlo : minOrdinal ≤ t.days - unitDays u * (digitsToNat ds : Int))
    (hhi : t.days - unitDays u * (digitsToNat ds : Int) ≤ maxOrdinal) :
    ∃ q, parse_nlq_to_query_exc (some ("last ".data ++ ds ++ ' ' :: u.data).asString) t =
        .ok q ∧
      q.filter = [("created_at", vDict [("$gte",
        vDT ⟨t.days - unitDays u * (digitsToNat ds : Int), t.sod⟩)])] := by
  obtain ⟨d0, ds', rfl⟩ : ∃ d0 ds', ds = d0 :: ds' := by
    cases ds with
    | nil => exact absurd rfl hne
    | cons a b => exact ⟨a, b, rfl⟩
  have hform : "last ".data ++ (d0 :: ds') ++ ' ' :: u.data =
      'l' :: 'a' :: 's' :: 't' :: ' ' ::(d0 :: (ds' ++ ' ' :: u.data)) := by simp
  rw [hform]
  fin_cases hu
  · obtain ⟨q, hq1, hq2⟩ := (c5_core d0 ds' "day".data "day".data t hdig (by decide)
      (by decide) (by decide) (by decide) (by decide)).2
      (show ((digitsToNat (d0 :: ds') : Int)).natAbs ≤ timedeltaMaxDays by
        rw [show unitDays "day" = 1 from rfl] at hmax; omega)
      (show minOrdinal ≤ t.days - (digitsToNat (d0 :: ds') : Int) by
        rw [show unitDays "day" = 1 from rfl] at hlo; omega)
      (show t.days - (digitsToNat (d0 :: ds') : Int) ≤ maxOrdinal by
        rw [show unitDays "day" = 1 from rfl] at hhi; omega)
    refine ⟨q, hq1, ?_⟩
    rw [hq2]
    rw [show containsSub "day".data "day".data = true from by decide,
      show unitDays "day" = 1 from rfl]
    simp [addDays, sub_eq_add_neg]
  · obtain ⟨q, hq1, hq2⟩ := (c5_core d0 ds' "days".data "days".data t hdig (by decide)
      (by decide) (by decide) (by decide) (by decide)).2
      (show ((digitsToNat (d0 :: ds') : Int)).natAbs ≤ timedeltaMaxDays by
        rw [show unitDays "days" = 1 from rfl] at hmax; omega)
      (show minOrdinal ≤ t.days - (digitsToNat (d0 :: ds') : Int) by
        rw [show unitDays "days" = 1 from rfl] at hlo; omega)
      (show t.days - (digitsToNat (d0 :: ds') : Int) ≤ maxOrdinal by
        rw [show unitDays "days" = 1 from rfl] at hhi; omega)
    refine ⟨q, hq1, ?_⟩
    rw [hq2]
    rw [show containsSub "day".data "days".data = true from by decide,
      show unitDays "days" = 1 from rfl]
    simp [addDays, sub_eq_add_neg]
  · obtain ⟨q, hq1, hq2⟩ := (c5_core d0 ds' "week".data "week".data t hdig (by decide)
      (by decide) (by decide) (by decide) (by decide)).2
      (show (7 * (digitsToNat (d0 :: ds') : Int)).natAbs ≤ timedeltaMaxDays by
        rw [show unitDays "week" = 7 from rfl] at hmax; omega)
      (show minOrdinal ≤ t.days - 7 * (digitsToNat (d0 :: ds') : Int) by
        rw [show unitDays "week" = 7 from rfl] at hlo; omega)
      (show t.days - 7 * (digitsToNat (d0 :: ds') : Int) ≤ maxOrdinal by
        rw [show unitDays "week" = 7 from rfl] at hhi; omega)
    refine ⟨q, hq1, ?_⟩
    rw [hq2]
    rw [show containsSub "day".data "week".data = false from by decide,
      show containsSub "week".data "week".data = true from by decide,
      show unitDays "week" = 7 from rfl]
    simp [addDays, sub_eq_add_neg]
  · obtain ⟨q, hq1, hq2⟩ := (c5_core d0 ds' "weeks".data "weeks".data t hdig (by decide)
      (by decide) (by decide) (by decide) (by decide)).2
      (show (7 * (digitsToNat (d0 :: ds') : Int)).natAbs ≤ timedeltaMaxDays by
        rw [show unitDays "weeks" = 7 from rfl] at hmax; omega)
      (show minOrdinal ≤ t.days - 7 * (digitsToNat (d0 :: ds') : Int) by
        rw [show unitDays "weeks" = 7 from rfl] at hlo; omega)
      (show t.days - 7 * (digitsToNat (d0 :: ds') : Int) ≤ maxOrdinal by
        rw [show unitDays "weeks" = 7 from rfl] at hhi; omega)
    refine ⟨q, hq1, ?_⟩
    rw [hq2]
    rw [show containsSub "day".data "weeks".data = false from by decide,
      show containsSub "week".data "weeks".data = true from by decide,
      show unitDays "weeks" = 7 from rfl]
    simp [addDays, sub_eq_add_neg]
  · obtain ⟨q, hq1, hq2⟩ := (c5_core d0 ds' "month".data "month".data t hdig (by decide)
      (by decide) (by decide) (by decide) (by decide)).2
      (show (((digitsToNat (d0 :: ds') * 30 : Nat) : Int)).natAbs ≤ timedeltaMaxDays by
        rw [show unitDays "month" = 30 from rfl] at hmax; omega)
      (show minOrdinal ≤ t.days - ((digitsToNat (d0 :: ds') * 30 : Nat) : Int) by
        rw [show unitDays "month" = 30 from rfl] at hlo; omega)
      (show t.days - ((digitsToNat (d0 :: ds') * 30 : Nat) : Int) ≤ maxOrdinal by
        rw [show unitDays "month" = 30 from rfl] at hhi; omega)
    refine ⟨q, hq1, ?_⟩
    rw [hq2]
    rw [show containsSub "day".data "month".data = false from by decide,
      show containsSub "week".data "month".data = false from by decide,
      show unitDays "month" = 30 from rfl]
    simp [addDays, sub_eq_add_neg]
    ring
  · obtain ⟨q, hq1, hq2⟩ := (c5_core d0 ds' "months".data "months".data t hdig (by decide)
      (by decide) (by decide) (by decide) (by decide)).2
      (show (((digitsToNat (d0 :: ds') * 30 : Nat) : Int)).natAbs ≤ timedeltaMaxDays by
        rw [show unitDays "months" = 30 from rfl] at hmax; omega)
      (show minOrdinal ≤ t.days - ((digitsToNat (d0 :: ds') * 30 : Nat) : Int) by
        rw [show unitDays "months" = 30 from rfl] at hlo; omega)
      (show t.days - ((digitsToNat (d0 :: ds') * 30 : Nat) : Int) ≤ maxOrdinal by
        rw [show unitDays "months" = 30 from rfl] at hhi; omega)
    refine ⟨q, hq1, ?_⟩
    rw [hq2]
    rw [show containsSub "day".data "months".data = false from by decide,
      show containsSub "week".data "months".data = false from by decide,
      show unitDays "months" = 30 from rfl]
    simp [addDays, sub_eq_add_neg]
    ring

/-- C5 (witness): `parse("last 2 months", T)` at an in-range instant returns
`created_at >= T - 60 days` exactly, without raising. -/
theorem nlq_c5_amended_witness :
    unitDays "months" * (digitsToNat ['2'] : Int) ≤ (timedeltaMaxDays : Int) ∧
    minOrdinal ≤ (739252 : Int) - unitDays "months" * (digitsToNat ['2'] : Int) ∧
    ∃ q, parse_nlq_to_query_exc
        (some ("last ".data ++ ['2'] ++ ' ' :: "months".data).asString) ⟨739252, 0⟩ =
        .ok q ∧
      q.filter = [("created_at", vDict [("$gte",
        vDT ⟨(739252 : Int) - unitDays "months" * (digitsToNat ['2'] : Int), 0⟩)])] :=
  ⟨by decide, by decide,
    nlq_c5_amended ['2'] "months" ⟨739252, 0⟩ (by decide) (by decide) (by decide)
      (by decide) (by decide) (by decide)⟩
